import Mathlib

/-! # output_mjpeg: ring-buffer MJPEG recorder

A shallow embedding of `plugins/output_mjpeg/output_mjpeg.c` and `output_mjpeg.h`.

Conventions of the embedding.

* C strings are `List Char`.
* `int` values are `Int`; results of arithmetic and of conversions that are stored in an `int`
  are passed through `wrapInt32` (two's complement, 32 bits).
* `double` values are modelled by `Dbl`: rationals that are binary64 values, the two
  infinities and NaN. Every conversion to `double`, division and multiplication rounds its
  exact result with `round_binary64` (round to nearest, ties to even, 53 bit significand).
  Overflow and subnormal numbers are not modelled; the values that occur are quotients and
  products of 64 bit integers and of 100, far inside the normal range.
* The target directory is a list of entries `(d_name, size)` in the order in which `readdir`
  enumerates them.
* System and library calls that change the outside world are recorded in an event log.
* Behaviour that C leaves undefined is a distinct outcome: `none` for functions that
  return `Option`, `Step.undefined` for pieces of `worker_thread`. In `get_file_number` the
  source calls `sscanf(de->d_name, FILE_PREFIX"%d[^.]", j)` with the uninitialised `int`
  variable `j` itself, not its address, as the argument of `%d`. Whenever the directive
  converts a number, the store goes through that argument and the behaviour is undefined.
  When no conversion takes place nothing is stored and the argument is not used; the
  embedding takes the call as defined in that case.
-/

namespace OutputMjpeg

/-! ## Constants of output_mjpeg.h -/

def FILE_PREFIX : List Char := ['R', 'E', 'C']
def FILE_EXTENSION : List Char := ['.', 'm', 'j', 'p', 'e', 'g']
def OLDEST_FILE : Int := 1
def NEW_FILE : Int := 2
def FILE_PERCENTAGE_THRESHOLD : Int := 25

/-! ## Machine integers -/

/-- Value of an integer after it is stored in a 32 bit two's complement `int`. -/
def wrapInt32 (v : Int) : Int := (v + 2147483648) % 4294967296 - 2147483648

def INT_MAX : Int := 2147483647

/-! ## libc: character classes, scanf and printf conversions -/

/-- The function `isspace` of the C locale: space, `\t`, `\n`, `\v`, `\f`, `\r`. -/
def isspace (c : Char) : Bool :=
  c.toNat = 32 || (9 ≤ c.toNat && c.toNat ≤ 13)

/-- The function `isdigit`. -/
def isdigit (c : Char) : Bool :=
  48 ≤ c.toNat && c.toNat ≤ 57

/-- Numeric value of a decimal digit character. -/
def digitVal (c : Char) : Nat := c.toNat - 48

/-- Value of a string of decimal digits, most significant digit first. -/
def digitsValue (ds : List Char) : Nat :=
  ds.foldl (fun acc c => acc * 10 + digitVal c) 0

/-- The digits of an optionally signed decimal integer at the start of `s`, as consumed by
`%d` and by `atoi` after the leading white space: `none` when no digit follows the
optional sign, otherwise the mathematical value. -/
def scanSignedDecimal (s : List Char) : Option Int :=
  match s with
  | [] => none
  | c :: r =>
    if c = '-' then
      let ds := r.takeWhile isdigit
      if ds = [] then none else some (-(digitsValue ds : Int))
    else if c = '+' then
      let ds := r.takeWhile isdigit
      if ds = [] then none else some (digitsValue ds : Int)
    else
      let ds := (c :: r).takeWhile isdigit
      if ds = [] then none else some (digitsValue ds : Int)

/-- The conversion directive `%d` of `sscanf` applied to the remaining input `s`: skips white
space, then reads an optionally signed decimal integer. `none` is a matching or input
failure; otherwise the value stored in the `int` argument, taken as the low 32 bits of the
number read (C leaves numbers that do not fit undefined). -/
def scan_d (s : List Char) : Option Int :=
  (scanSignedDecimal (s.dropWhile isspace)).map wrapInt32

/-- The number that the directives `REC%d` at the start of the format `FILE_PREFIX"%d[^.]"`
convert from `d_name`: the literal `REC` must match the start of the name, then `%d`
converts. `none` when the input fails or does not match before the conversion is
complete. The characters `[^.]` that follow in the format are ordinary characters placed
after the only conversion; whether they match changes neither the conversion nor the
number of conversions. -/
def convert_REC_d (d_name : List Char) : Option Int :=
  match d_name with
  | 'R' :: 'E' :: 'C' :: rest => scan_d rest
  | _ => none

/-- Outcome of the call `sscanf(de->d_name, FILE_PREFIX"%d[^.]", j)` of line 99. -/
inductive SscanfCall where
  /-- No conversion takes place: the call returns 0 or `EOF`, stores nothing, and the test
  `== 1` fails. -/
  | no_conversion
  /-- The directive `%d` converts a number and stores it through its argument. That argument
  is the uninitialised `int` `j`, passed by value where a pointer to `int` is required: the
  behaviour is undefined, and `j` is not assigned. -/
  | undefined
  deriving DecidableEq, Repr

/-- The call `sscanf(de->d_name, FILE_PREFIX"%d[^.]", j)` of line 99. -/
def sscanf_REC_d (d_name : List Char) : SscanfCall :=
  match convert_REC_d d_name with
  | some _ => SscanfCall.undefined
  | none => SscanfCall.no_conversion

/-- The function `atoi`: white space, optional sign, digits; 0 when there is no digit. The
result is taken as the low 32 bits of the number read (C leaves numbers that do not fit
undefined). -/
def atoi (s : List Char) : Int :=
  match scanSignedDecimal (s.dropWhile isspace) with
  | some v => wrapInt32 v
  | none => 0

/-- Character of a decimal digit `d < 10`. -/
def digitChar (d : Nat) : Char := Char.ofNat (48 + d)

/-- Decimal digits of `n`, most significant first, prepended to `acc`. -/
def decimalAux : Nat → Nat → List Char → List Char
  | 0, _, acc => acc
  | fuel + 1, n, acc =>
    if n < 10 then digitChar n :: acc
    else decimalAux fuel (n / 10) (digitChar (n % 10) :: acc)

/-- Decimal representation of a natural number without leading zeros. -/
def decimal (n : Nat) : List Char := decimalAux (n + 1) n []

/-- Left padding with `0` up to the width `w`. -/
def zeroPad (w : Nat) (ds : List Char) : List Char :=
  List.replicate (w - ds.length) '0' ++ ds

/-- The conversion `%06d` of `printf`: minimum field width 6, padded with zeros after the
sign. -/
def fmt_06d (n : Int) : List Char :=
  if n < 0 then '-' :: zeroPad 5 (decimal n.natAbs) else zeroPad 6 (decimal n.toNat)

/-- The string `FILE_PREFIX "%06d" FILE_EXTENSION` formatted with `fn_number`. -/
def format_file_name (fn_number : Int) : List Char :=
  FILE_PREFIX ++ fmt_06d fn_number ++ FILE_EXTENSION

/-- The string `"%s/%s"` formatted with `folder` and `file_name`. -/
def format_path (folder file_name : List Char) : List Char :=
  folder ++ '/' :: file_name

/-! ## get_file_number -/

/-- One pass of the `readdir` loop body of `get_file_number` (lines 97 to 105) for the entry
`d_name`, with `i` the value before the pass: the value of `i` after the pass, or `none` when
the behaviour is undefined. Lines 100 to 104, which compare `j` with `i` and assign `i`, run
only after a call that returned 1, that is after the undefined store; in every defined pass
the test `== 1` fails and `i` keeps its value. -/
def scan_entry (i : Int) (d_name : List Char) : Option Int :=
  match sscanf_REC_d d_name with
  | SscanfCall.no_conversion => some i
  | SscanfCall.undefined => none

/-- The loop `while ((de = readdir(dr)) != NULL)` of `get_file_number` over the remaining
entries. -/
def readdir_loop : Int → List (List Char) → Option Int
  | i, [] => some i
  | i, d_name :: rest =>
    match scan_entry i d_name with
    | some i1 => readdir_loop i1 rest
    | none => none

/-- The function `get_file_number`. `dir` is `none` when `opendir` fails, otherwise the
names returned by `readdir`, in order. The result is `none` when the behaviour is
undefined. -/
def get_file_number (dir : Option (List (List Char))) (type : Int) : Option Int :=
  let i : Int := if type = NEW_FILE then 0 else 999999
  match dir with
  | none => some 0
  | some names => readdir_loop i names

/-! ## Doubles -/

/-- Rounding of a rational to the nearest integer, ties to the even integer. -/
def round_half_even (m : ℚ) : Int :=
  if m - ⌊m⌋ < 1 / 2 then ⌊m⌋
  else if 1 / 2 < m - ⌊m⌋ then ⌊m⌋ + 1
  else if ⌊m⌋ % 2 = 0 then ⌊m⌋ else ⌊m⌋ + 1

/-- Rounding of a positive rational `x` to binary64: with `e` the binary exponent of `x`,
the significand `x / 2 ^ (e - 52)` lies in `[2 ^ 52, 2 ^ 53)` and is rounded to an integer. -/
def round_binary64_pos (x : ℚ) : ℚ :=
  (round_half_even (x / (2 : ℚ) ^ (Int.log 2 x - 52)) : ℚ) * (2 : ℚ) ^ (Int.log 2 x - 52)

/-- Rounding of a rational to binary64, round to nearest, ties to even. -/
def round_binary64 (x : ℚ) : ℚ :=
  if x = 0 then 0
  else if 0 < x then round_binary64_pos x
  else -round_binary64_pos (-x)

/-- Values of type `double`: finite values, the two infinities and NaN. -/
inductive Dbl where
  | fin (q : ℚ)
  | pinf
  | ninf
  | nan

/-- Division `a / b` of two finite doubles. -/
def Dbl.div (a b : ℚ) : Dbl :=
  if b = 0 then (if 0 < a then Dbl.pinf else if a < 0 then Dbl.ninf else Dbl.nan)
  else Dbl.fin (round_binary64 (a / b))

/-- Multiplication by the positive finite constant `c`. -/
def Dbl.scale (x : Dbl) (c : ℚ) : Dbl :=
  match x with
  | Dbl.fin q => Dbl.fin (round_binary64 (q * c))
  | y => y

/-- Comparison `x > t` with a finite `t`. -/
def Dbl.gt (x : Dbl) (t : ℚ) : Bool :=
  match x with
  | Dbl.fin q => decide (t < q)
  | Dbl.pinf => true
  | _ => false

/-- Comparison `x < t` with a finite `t`. -/
def Dbl.lt (x : Dbl) (t : ℚ) : Bool :=
  match x with
  | Dbl.fin q => decide (q < t)
  | Dbl.ninf => true
  | _ => false

/-! ## State of the plugin and of its environment -/

/-- Calls that act on the outside world, in the order in which they are made. -/
inductive Event where
  | sys_open (path : List Char)
  | sys_close (fd : Int)
  | sys_remove (path : List Char)
  | sys_write (fd : Int) (count : Int)
  | free_frame
  deriving DecidableEq, Repr

/-- The file-scope variables of output_mjpeg.c, the function-scope statics and the local
counter of `worker_thread`, together with the part of the outside world that the plugin acts
on. -/
structure State where
  /-- Variable `static int fd`. -/
  fd : Int
  /-- Variable `static int usage_percentage`. -/
  usage_percentage : Int
  /-- Variable `static int max_frame_size`. -/
  max_frame_size : Int
  /-- Variable `static char *folder`. -/
  folder : List Char
  /-- Variable `static unsigned char *frame`: `none` is NULL, `some c` a block of `c` bytes. -/
  frame : Option Int
  /-- Variable `static int input_number`. -/
  input_number : Int
  /-- Variable `static char *file_name`: `none` is NULL. -/
  file_name : Option (List Char)
  /-- Variable `static unsigned char first_run` of `worker_cleanup`. -/
  first_run : Bool
  /-- Variable `unsigned long long counter` of `worker_thread`. -/
  counter : Nat
  /-- Whether `opendir(folder)` succeeds. -/
  dir_opens : Bool
  /-- Entries of the directory `folder`, `(d_name, size)`, in `readdir` order. -/
  entries : List (List Char × Nat)
  /-- Calls made so far. -/
  log : List Event
  deriving DecidableEq, Repr

/-- The initial values of the static variables, for a given directory content. -/
def initial_state (dir_opens : Bool) (entries : List (List Char × Nat)) : State :=
  { fd := 0, usage_percentage := 0, max_frame_size := 0,
    folder := ['/', 't', 'm', 'p'], frame := none, input_number := 0, file_name := none,
    first_run := true, counter := 0, dir_opens := dir_opens, entries := entries, log := [] }

/-- What `opendir` and the `readdir` loop deliver for `folder`. -/
def read_dir (st : State) : Option (List (List Char)) :=
  if st.dir_opens then some (st.entries.map Prod.fst) else none

/-- The entry name that `path` denotes inside `folder`, when `path` is `folder/name`. -/
def resolve (folder path : List Char) : Option (List Char) :=
  if (folder ++ ['/']).isPrefixOf path then some (path.drop (folder.length + 1)) else none

/-- Effect of opening `name` with `O_CREAT | O_TRUNC` on the directory: an existing entry is
truncated to size 0, otherwise an empty entry is added. -/
def create_or_truncate (entries : List (List Char × Nat)) (name : List Char) :
    List (List Char × Nat) :=
  if entries.any (fun e => e.1 = name) then
    entries.map (fun e => if e.1 = name then (name, 0) else e)
  else entries ++ [(name, 0)]

/-- The call `open(path, O_CREAT | O_RDWR | O_TRUNC, mode)` returning `ret` (a descriptor, or
a negative value on failure). -/
def sys_open (st : State) (path : List Char) (ret : Int) : State :=
  let st1 := { st with log := st.log ++ [Event.sys_open path] }
  if ret < 0 then st1
  else
    match resolve st.folder path with
    | some name => { st1 with entries := create_or_truncate st1.entries name }
    | none => st1

/-- The call `close(fd)`. -/
def sys_close (st : State) (fd : Int) : State :=
  { st with log := st.log ++ [Event.sys_close fd] }

/-- The call `remove(path)`: 0 when the entry existed and was removed, -1 otherwise. -/
def sys_remove (st : State) (path : List Char) : Int × State :=
  let st1 := { st with log := st.log ++ [Event.sys_remove path] }
  match resolve st.folder path with
  | some name =>
    if st.entries.any (fun e => e.1 = name) then
      (0, { st1 with entries := st1.entries.filter (fun e => e.1 ≠ name) })
    else (-1, st1)
  | none => (-1, st1)

/-- Result of running a piece of `worker_thread`. -/
inductive Step where
  /-- Control continues after the piece. -/
  | running (st : State)
  /-- The function `worker_thread` has returned. -/
  | returned (st : State)
  /-- The behaviour is not defined by C. -/
  | undefined
  deriving DecidableEq, Repr

/-! ## Disk accounting -/

/-- The fields of `struct statvfs` that are read; each is an unsigned 64 bit value. -/
structure StatVfs where
  f_blocks : Nat
  f_frsize : Nat
  f_bfree : Nat
  deriving DecidableEq, Repr

/-- The function `get_disk_percentage_free`. `vfs` is `none` when `statvfs` fails. -/
def get_disk_percentage_free (vfs : Option StatVfs) : Dbl :=
  match vfs with
  | some buffer =>
    let total : ℚ := round_binary64 ((buffer.f_blocks * buffer.f_frsize) % 2 ^ 64 : Nat)
    let available : ℚ := round_binary64 ((buffer.f_bfree * buffer.f_frsize) % 2 ^ 64 : Nat)
    let used : ℚ := round_binary64 (total - available)
    (Dbl.div used total).scale 100
  | none => Dbl.fin 100

/-- The function `get_current_file_percentage`. `vfs` is `none` when `statvfs` fails,
`st_size` is `none` when `fstat` fails. -/
def get_current_file_percentage (vfs : Option StatVfs) (st_size : Option Int) : Dbl :=
  match vfs, st_size with
  | some stfs, some size =>
    let total : ℚ := round_binary64 ((stfs.f_blocks * stfs.f_frsize) % 2 ^ 64 : Nat)
    let fsize : ℚ := round_binary64 size
    (Dbl.div fsize total).scale 100
  | _, _ => Dbl.fin 0

/-! ## Recording session -/

/-- The function `open_file`. `open_ret` is the value returned by `open`. Returns the status
code and the new state, or `none` when the behaviour is undefined. -/
def open_file (st : State) (open_ret : Int) : Option (Int × State) :=
  match get_file_number (read_dir st) NEW_FILE with
  | none => none
  | some fn_number =>
    let file_name := format_file_name fn_number
    let st1 := { st with file_name := some file_name }
    let fnBuffer := format_path st1.folder file_name
    let st2 := { sys_open st1 fnBuffer open_ret with fd := open_ret }
    if open_ret < 0 then some (1, st2) else some (0, st2)

/-- The function `delete_oldest_file`. The number of the oldest file is computed and
formatted into `del_file_name`, but the path handed to `remove` is built from the static
variable `file_name`. Returns the status code and the new state, or `none` when the
behaviour is undefined (in `get_file_number`, or `strlen` of a null `file_name`). -/
def delete_oldest_file (st : State) : Option (Int × State) :=
  match get_file_number (read_dir st) OLDEST_FILE with
  | none => none
  | some fn_number =>
    let _del_file_name := format_file_name fn_number
    match st.file_name with
    | none => none
    | some file_name =>
      let fnBuffer := format_path st.folder file_name
      let r := sys_remove st fnBuffer
      if r.1 ≠ 0 then some (1, r.2) else some (0, r.2)

/-- The function `worker_cleanup`. -/
def worker_cleanup (st : State) : State :=
  let st1 := if st.file_name ≠ none then sys_close st st.fd else st
  if !st1.first_run then st1
  else
    let st2 := { st1 with first_run := false }
    let st3 := if st2.frame ≠ none then { st2 with log := st2.log ++ [Event.free_frame] }
      else st2
    sys_close st3 st3.fd

/-! ## Worker -/

/-- What the environment delivers during one iteration of the loop of `worker_thread`. -/
structure Input where
  /-- Flag `pglobal->stop`, read in the loop condition. -/
  stop : Bool
  /-- Size `pglobal->in[input_number].size` of the fresh frame. -/
  frame_size : Int
  /-- Whether `realloc` returns a block. -/
  realloc_ok : Bool
  /-- Whether `write` returns a non-negative value. -/
  write_ok : Bool
  /-- Result of `statvfs` inside `get_current_file_percentage`. -/
  vfs_file : Option StatVfs
  /-- Result of `fstat` inside `get_current_file_percentage`. -/
  st_size : Option Int
  /-- Result of `open` inside `open_file`. -/
  open_ret : Int
  /-- Result of `statvfs` inside `get_disk_percentage_free`. -/
  vfs_free : Option StatVfs
  deriving DecidableEq, Repr

/-- Lines 252 to 266 of `worker_thread`: the frame size is read and the local buffer is
enlarged when the frame does not fit. `Step.running` is the state in which `memcpy` copies
`frame_size` bytes into `frame`. -/
def ensure_buffer (st : State) (frame_size : Int) (realloc_ok : Bool) : Step :=
  if frame_size > st.max_frame_size then
    let st1 := { st with max_frame_size := wrapInt32 (frame_size + 65536) }
    if !realloc_ok then Step.returned st1
    else Step.running { st1 with frame := some st1.max_frame_size }
  else Step.running st

/-- The body of the rotation branch of the periodic check: `close(fd)` followed by
`open_file()`; `worker_thread` returns when `open_file` returns 1. -/
def rotate (st : State) (open_ret : Int) : Step :=
  let st1 := sys_close st st.fd
  match open_file st1 open_ret with
  | none => Step.undefined
  | some r => if r.1 = 1 then Step.returned r.2 else Step.running r.2

/-- The rotation part of the periodic check of `worker_thread`. -/
def rotation_check (st : State) (inp : Input) : Step :=
  if (get_current_file_percentage inp.vfs_file inp.st_size).gt FILE_PERCENTAGE_THRESHOLD then
    rotate st inp.open_ret
  else Step.running st

/-- The eviction part of the periodic check of `worker_thread`. -/
def eviction_check (st : State) (inp : Input) : Step :=
  if (get_disk_percentage_free inp.vfs_free).lt st.usage_percentage then
    match delete_oldest_file st with
    | some r => Step.running r.2
    | none => Step.undefined
  else Step.running st

/-- The periodic check of `worker_thread`: the body of `if(counter > 30)`. -/
def periodic_check (st : State) (inp : Input) : Step :=
  match rotation_check st inp with
  | Step.running st1 =>
    match eviction_check st1 inp with
    | Step.running st2 => Step.running { st2 with counter := 0 }
    | other => other
  | other => other

/-- One iteration of the loop body of `worker_thread`, after the loop condition. -/
def worker_iteration (st : State) (inp : Input) : Step :=
  match ensure_buffer st inp.frame_size inp.realloc_ok with
  | Step.running st1 =>
    let st2 := { st1 with log := st1.log ++ [Event.sys_write st1.fd inp.frame_size] }
    if !inp.write_ok then Step.returned (sys_close st2 st2.fd)
    else
      let st3 := { st2 with counter := (st2.counter + 1) % 2 ^ 64 }
      if st3.counter > 30 then periodic_check st3 inp else Step.running st3
  | other => other

/-- The function `worker_thread` run against the inputs of successive iterations.
`Step.running` means that the inputs are used up and the loop is still going. -/
def worker_thread : State → List Input → Step
  | st, [] => Step.running st
  | st, inp :: rest =>
    if inp.stop then Step.returned (worker_cleanup st)
    else
      match worker_iteration st inp with
      | Step.running st1 => worker_thread st1 rest
      | other => other

/-! ## Plugin interface: output_init -/

/-- One result of `getopt_long_only`. -/
inductive GetoptResult where
  /-- Return value `?`: unrecognized option. -/
  | unrecognized
  /-- A recognised long option: its index in `long_options` and `optarg`. -/
  | option (option_index : Nat) (optarg : List Char)
  deriving DecidableEq, Repr

/-- The assignment of `folder` for the options `f` and `folder`: a copy of `optarg` whose
last character is dropped when it is a slash. An empty `optarg`, for which the source
reads the byte before the string, is kept as it is. -/
def folder_of_optarg (optarg : List Char) : List Char :=
  if optarg.getLast? = some '/' then optarg.dropLast else optarg

/-- The body of the option loop of `output_init` for one result of `getopt_long_only`:
either the value that `output_init` returns at once together with the state at that point,
or the state with which the loop goes on. -/
def process_option (st : State) (r : GetoptResult) : Except (Int × State) State :=
  match r with
  | GetoptResult.unrecognized => Except.error (1, st)
  | GetoptResult.option option_index optarg =>
    if option_index = 0 ∨ option_index = 1 then Except.error (1, st)
    else if option_index = 2 ∨ option_index = 3 then
      Except.ok { st with folder := folder_of_optarg optarg }
    else if option_index = 4 ∨ option_index = 5 then
      let st1 := { st with usage_percentage := atoi optarg }
      if st1.usage_percentage < 0 ∨ st1.usage_percentage > 99 then Except.error (-1, st1)
      else Except.ok st1
    else Except.ok st

/-- The option loop of `output_init`. -/
def parse_options : State → List GetoptResult → Except (Int × State) State
  | st, [] => Except.ok st
  | st, r :: rest =>
    match process_option st r with
    | Except.ok st1 => parse_options st1 rest
    | Except.error e => Except.error e

/-- The function `output_init`: `opts` are the successive results of `getopt_long_only`,
`incnt` is `pglobal->incnt`, `open_ret` the value that `open` returns if it is called.
Returns the return value and the state, or `none` when the behaviour is undefined. -/
def output_init (st : State) (opts : List GetoptResult) (incnt : Int) (open_ret : Int) :
    Option (Int × State) :=
  match parse_options st opts with
  | Except.error e => some e
  | Except.ok st1 =>
    if ¬ (st1.input_number < incnt) then some (1, st1)
    else open_file st1 open_ret

/-- Number of `close` calls in a log. -/
def close_calls (log : List Event) : Nat :=
  (log.filter (fun e => match e with
    | Event.sys_close _ => true
    | _ => false)).length

/-- Number of `free(frame)` calls in a log. -/
def free_calls (log : List Event) : Nat :=
  (log.filter (fun e => match e with
    | Event.free_frame => true
    | _ => false)).length

/-- Number of `remove` calls in a log. -/
def remove_calls (log : List Event) : Nat :=
  (log.filter (fun e => match e with
    | Event.sys_remove _ => true
    | _ => false)).length

/-! ## Concrete scenarios -/

/-- The recorder after `output_init` with the option `-s 50` in the empty directory `/tmp`:
`open` returned descriptor 3 and created `REC000000.mjpeg`. -/
def started_in_empty_folder : State :=
  { initial_state true [("REC000000.mjpeg".toList, 0)] with
    fd := 3
    usage_percentage := 50
    file_name := some "REC000000.mjpeg".toList
    log := [Event.sys_open "/tmp/REC000000.mjpeg".toList] }

/-- An iteration in which every filesystem statistics query fails. -/
def input_stat_failure : Input :=
  { stop := false, frame_size := 1000, realloc_ok := true, write_ok := true,
    vfs_file := none, st_size := none, open_ret := 4, vfs_free := none }

/-- An iteration in which the current file holds 4096 bytes on a filesystem of 4 blocks of
4096 bytes, half of them free: the occupancy is exactly 25 percent. -/
def input_quarter_full : Input :=
  { stop := false, frame_size := 1000, realloc_ok := true, write_ok := true,
    vfs_file := some { f_blocks := 4, f_frsize := 4096, f_bfree := 2 }, st_size := some 4096,
    open_ret := 4, vfs_free := some { f_blocks := 4, f_frsize := 4096, f_bfree := 2 } }

/-- One iteration with a frame of `frame_size` bytes in which every call succeeds and every
statistics query fails. -/
def input_frame (frame_size : Int) : Input :=
  { input_stat_failure with frame_size := frame_size }

/-- Consistency of the frame buffer: `max_frame_size` is a non-negative `int`, and `frame`
is NULL with `max_frame_size` 0 or a block of `max_frame_size` bytes. -/
def buffer_ok (st : State) : Prop :=
  0 ≤ st.max_frame_size ∧ st.max_frame_size ≤ INT_MAX ∧
  ((st.frame = none ∧ st.max_frame_size = 0) ∨ st.frame = some st.max_frame_size)

/-- The six-digit zero-padded decimal of `n`, digit by digit. -/
def six_digits (n : Nat) : List Char :=
  [digitChar (n / 100000 % 10), digitChar (n / 10000 % 10), digitChar (n / 1000 % 10),
   digitChar (n / 100 % 10), digitChar (n / 10 % 10), digitChar (n % 10)]

/-! ## Facts about digits -/

theorem digitChar_facts (d : Nat) (h : d < 10) :
    isdigit (digitChar d) = true ∧ isspace (digitChar d) = false ∧
    digitChar d ≠ '-' ∧ digitChar d ≠ '+' ∧ digitVal (digitChar d) = d := by
  interval_cases d <;> decide

theorem digitChar_zero : digitChar 0 = '0' := by decide

theorem decimalAux_fuel (k : Nat) : ∀ (fuel n : Nat) (acc : List Char),
    n < 10 ^ (k + 1) → k + 1 ≤ fuel → decimalAux fuel n acc = decimalAux (k + 1) n acc := by
  induction k with
  | zero =>
    intro fuel n acc hn hf
    obtain ⟨f, rfl⟩ : ∃ f, fuel = f + 1 := ⟨fuel - 1, by omega⟩
    have h10 : n < 10 := by simpa using hn
    simp [decimalAux, h10]
  | succ k ih =>
    intro fuel n acc hn hf
    obtain ⟨f, rfl⟩ : ∃ f, fuel = f + 1 := ⟨fuel - 1, by omega⟩
    by_cases h10 : n < 10
    · simp [decimalAux, h10]
    · have hdiv : n / 10 < 10 ^ (k + 1) := by
        rw [Nat.div_lt_iff_lt_mul (by norm_num)]
        calc n < 10 ^ (k + 1 + 1) := hn
          _ = 10 ^ (k + 1) * 10 := by ring
      rw [decimalAux, if_neg h10, ih f (n / 10) _ hdiv (by omega)]
      conv_rhs => rw [decimalAux, if_neg h10]

theorem decimal_eq_six (n : Nat) (hn : n < 1000000) : decimal n = decimalAux 6 n [] := by
  unfold decimal
  by_cases h : n + 1 ≤ 6
  · have hlt : n < 10 ^ (n + 1) :=
      lt_trans (Nat.lt_pow_self (by norm_num : 1 < 10) n)
        (Nat.pow_lt_pow_right (by norm_num) (Nat.lt_succ_self n))
    exact (decimalAux_fuel n 6 n [] hlt h).symm
  · exact decimalAux_fuel 5 (n + 1) n [] (by norm_num; omega) (by omega)

theorem zeroPad_decimal (n : Nat) (hn : n < 1000000) : zeroPad 6 (decimal n) = six_digits n := by
  rw [decimal_eq_six n hn]
  simp only [decimalAux, zeroPad, six_digits]
  split_ifs <;> simp [List.replicate, ← digitChar_zero]
  all_goals first
    | omega
    | (repeat' constructor) <;>
        first
        | (congr 1; omega)
        | (rw [← digitChar_zero]; congr 1; omega)

theorem wrapInt32_of_range (v : Int) (h0 : -2147483648 ≤ v) (h1 : v ≤ 2147483647) :
    wrapInt32 v = v := by
  unfold wrapInt32
  omega

theorem isdigit_not_sign (c : Char) (h : isdigit c = true) :
    c ≠ '-' ∧ c ≠ '+' ∧ isspace c = false := by
  refine ⟨?_, ?_, ?_⟩
  · rintro rfl
    exact absurd h (by decide)
  · rintro rfl
    exact absurd h (by decide)
  · simp only [isdigit, Bool.and_eq_true, decide_eq_true_eq] at h
    simp only [isspace, Bool.or_eq_false_iff, Bool.and_eq_false_iff, decide_eq_false_iff_not]
    omega

theorem takeWhile_digits (ds rest : List Char) (hds : ∀ x ∈ ds, isdigit x = true)
    (hrest : ∀ x, rest.head? = some x → isdigit x = false) :
    (ds ++ rest).takeWhile isdigit = ds := by
  induction ds with
  | nil =>
    cases rest with
    | nil => rfl
    | cons x r => simp [List.takeWhile_cons, hrest x (by simp)]
  | cons d ds ih =>
    have hd : isdigit d = true := hds d (by simp)
    simp only [List.cons_append, List.takeWhile_cons, hd, if_true]
    rw [ih (fun x hx => hds x (by simp [hx]))]

theorem convert_digits (d : Char) (ds rest : List Char) (hd : isdigit d = true)
    (hds : ∀ x ∈ ds, isdigit x = true)
    (hrest : ∀ x, rest.head? = some x → isdigit x = false) :
    convert_REC_d (FILE_PREFIX ++ (d :: ds) ++ rest)
      = some (wrapInt32 (digitsValue (d :: ds))) := by
  obtain ⟨h1, h2, h3⟩ := isdigit_not_sign d hd
  have htw : ((d :: ds) ++ rest).takeWhile isdigit = d :: ds :=
    takeWhile_digits (d :: ds) rest (by
      intro x hx
      rcases List.mem_cons.mp hx with rfl | hx
      · exact hd
      · exact hds x hx) hrest
  have hdw : (d :: (ds ++ rest)).dropWhile isspace = d :: (ds ++ rest) := by
    simp [List.dropWhile_cons, h3]
  show (scanSignedDecimal ((d :: (ds ++ rest)).dropWhile isspace)).map wrapInt32 = _
  rw [hdw]
  simp only [scanSignedDecimal, if_neg h1, if_neg h2]
  rw [show d :: (ds ++ rest) = (d :: ds) ++ rest from rfl, htw]
  simp

theorem digitsValue_six_digits (n : Nat) (hn : n < 1000000) :
    digitsValue (six_digits n) = n := by
  obtain ⟨-, -, -, -, a5⟩ := digitChar_facts (n / 100000 % 10) (Nat.mod_lt _ (by norm_num))
  obtain ⟨-, -, -, -, b5⟩ := digitChar_facts (n / 10000 % 10) (Nat.mod_lt _ (by norm_num))
  obtain ⟨-, -, -, -, c5⟩ := digitChar_facts (n / 1000 % 10) (Nat.mod_lt _ (by norm_num))
  obtain ⟨-, -, -, -, d5⟩ := digitChar_facts (n / 100 % 10) (Nat.mod_lt _ (by norm_num))
  obtain ⟨-, -, -, -, e5⟩ := digitChar_facts (n / 10 % 10) (Nat.mod_lt _ (by norm_num))
  obtain ⟨-, -, -, -, f5⟩ := digitChar_facts (n % 10) (Nat.mod_lt _ (by norm_num))
  simp only [digitsValue, six_digits, List.foldl_cons, List.foldl_nil, a5, b5, c5, d5, e5, f5]
  omega

theorem six_digits_isdigit (n : Nat) : ∀ x ∈ six_digits n, isdigit x = true := by
  intro x hx
  simp only [six_digits, List.mem_cons, List.mem_singleton, List.not_mem_nil, or_false] at hx
  rcases hx with rfl | rfl | rfl | rfl | rfl | rfl <;>
    exact (digitChar_facts _ (Nat.mod_lt _ (by norm_num))).1

theorem convert_six_digits (n : Nat) (hn : n < 1000000) :
    convert_REC_d (FILE_PREFIX ++ six_digits n ++ FILE_EXTENSION) = some (n : Int) := by
  have h := convert_digits (digitChar (n / 100000 % 10))
    [digitChar (n / 10000 % 10), digitChar (n / 1000 % 10),
     digitChar (n / 100 % 10), digitChar (n / 10 % 10), digitChar (n % 10)] FILE_EXTENSION
    (six_digits_isdigit n _ (by simp [six_digits]))
    (fun x hx => six_digits_isdigit n x (by simp [six_digits] at *; tauto))
    (by intro x hx; simp [FILE_EXTENSION] at hx; subst hx; decide)
  have hv := digitsValue_six_digits n hn
  simp only [six_digits] at hv ⊢
  rw [h, hv, wrapInt32_of_range (n : Int) (by omega) (by omega)]

theorem format_file_name_six (n : Int) (h0 : 0 ≤ n) (h1 : n ≤ 999999) :
    format_file_name n = FILE_PREFIX ++ six_digits n.toNat ++ FILE_EXTENSION := by
  have hneg : ¬ n < 0 := by omega
  rw [format_file_name, fmt_06d, if_neg hneg, zeroPad_decimal n.toNat (by omega)]

theorem sys_open_log (st : State) (path : List Char) (ret : Int) :
    (sys_open st path ret).log = st.log ++ [Event.sys_open path] := by
  unfold sys_open
  split_ifs
  · rfl
  · cases resolve st.folder path <;> rfl

theorem sys_open_fields (st : State) (path : List Char) (ret : Int) :
    (sys_open st path ret).file_name = st.file_name ∧
    (sys_open st path ret).max_frame_size = st.max_frame_size ∧
    (sys_open st path ret).frame = st.frame ∧
    (sys_open st path ret).usage_percentage = st.usage_percentage ∧
    (sys_open st path ret).folder = st.folder ∧
    (sys_open st path ret).counter = st.counter ∧
    (sys_open st path ret).first_run = st.first_run := by
  unfold sys_open
  split_ifs
  · simp
  · cases resolve st.folder path <;> simp

/-! ## Facts about the directory scan -/

theorem scan_entry_eq (i : Int) (d_name : List Char) :
    scan_entry i d_name = if (convert_REC_d d_name).isNone then some i else none := by
  unfold scan_entry sscanf_REC_d
  cases convert_REC_d d_name <;> rfl

theorem readdir_loop_eq (names : List (List Char)) : ∀ i : Int,
    readdir_loop i names =
      if names.all (fun d => (convert_REC_d d).isNone) then some i else none := by
  induction names with
  | nil => intro i; rfl
  | cons d rest ih =>
    intro i
    cases hc : convert_REC_d d with
    | none => simp [readdir_loop, scan_entry_eq, hc, ih]
    | some v => simp [readdir_loop, scan_entry_eq, hc]

theorem get_file_number_eq (names : List (List Char)) (type : Int) :
    get_file_number (some names) type =
      if names.all (fun d => (convert_REC_d d).isNone)
      then some (if type = NEW_FILE then 0 else 999999) else none := by
  simp only [get_file_number, readdir_loop_eq]

theorem get_file_number_new (dir : Option (List (List Char))) (n : Int)
    (h : get_file_number dir NEW_FILE = some n) : n = 0 := by
  cases dir with
  | none =>
    simp only [get_file_number] at h
    injection h with h
    exact h.symm
  | some names =>
    rw [get_file_number_eq, if_pos rfl] at h
    split_ifs at h
    injection h with h
    exact h.symm

theorem open_file_some (st : State) (open_ret : Int) (r : Int × State)
    (h : open_file st open_ret = some r) :
    ∃ n, get_file_number (read_dir st) NEW_FILE = some n ∧
      r.1 = (if open_ret < 0 then 1 else 0) ∧
      r.2 = { (sys_open { st with file_name := some (format_file_name n) }
          (format_path st.folder (format_file_name n)) open_ret) with fd := open_ret } := by
  unfold open_file at h
  cases hn : get_file_number (read_dir st) NEW_FILE with
  | none => rw [hn] at h; cases h
  | some n =>
    rw [hn] at h
    refine ⟨n, rfl, ?_⟩
    simp only at h
    split_ifs at h with hneg <;> cases h <;> simp [hneg]

theorem open_file_of_number (st : State) (open_ret : Int) (n : Int)
    (hn : get_file_number (read_dir st) NEW_FILE = some n) :
    open_file st open_ret = some (if open_ret < 0 then 1 else 0,
      { (sys_open { st with file_name := some (format_file_name n) }
          (format_path st.folder (format_file_name n)) open_ret) with fd := open_ret }) := by
  unfold open_file
  rw [hn]
  simp only
  split_ifs <;> rfl

/-! ## Facts about binary64 rounding -/

theorem floor_le_round_half_even (m : ℚ) : ⌊m⌋ ≤ round_half_even m := by
  unfold round_half_even
  split_ifs <;> omega

theorem round_half_even_le (m : ℚ) : round_half_even m ≤ ⌊m⌋ + 1 := by
  unfold round_half_even
  split_ifs <;> omega

theorem round_half_even_int (n : Int) : round_half_even (n : ℚ) = n := by
  unfold round_half_even
  simp

theorem round_half_even_mono {a b : ℚ} (h : a ≤ b) : round_half_even a ≤ round_half_even b := by
  have hf : ⌊a⌋ ≤ ⌊b⌋ := Int.floor_mono h
  rcases lt_or_eq_of_le hf with hlt | heq
  · calc round_half_even a ≤ ⌊a⌋ + 1 := round_half_even_le a
      _ ≤ ⌊b⌋ := hlt
      _ ≤ round_half_even b := floor_le_round_half_even b
  · unfold round_half_even
    rw [heq]
    have hab : a - (⌊b⌋ : ℚ) ≤ b - (⌊b⌋ : ℚ) := by linarith
    split_ifs <;> first | omega | (exfalso; linarith)

theorem two_zpow_pos (k : Int) : (0 : ℚ) < (2 : ℚ) ^ k := zpow_pos (by norm_num) k

theorem log_two_bounds (x : ℚ) (hx : 0 < x) :
    (2 : ℚ) ^ Int.log 2 x ≤ x ∧ x < (2 : ℚ) ^ (Int.log 2 x + 1) := by
  have h1 := Int.zpow_log_le_self (b := 2) (r := x) (by norm_num) hx
  have h2 := Int.lt_zpow_succ_log_self (b := 2) (by norm_num) x
  simp only [Nat.cast_ofNat] at h1 h2
  exact ⟨h1, h2⟩

theorem log_two_eq (x : ℚ) (n : Int) (h1 : (2 : ℚ) ^ n ≤ x) (h2 : x < (2 : ℚ) ^ (n + 1)) :
    Int.log 2 x = n := by
  have hx : 0 < x := lt_of_lt_of_le (two_zpow_pos n) h1
  apply le_antisymm
  · have := (Int.lt_zpow_iff_log_lt (b := 2) (by norm_num) hx (x := n + 1)).mp
      (by simpa using h2)
    omega
  · exact (Int.zpow_le_iff_le_log (b := 2) (by norm_num) hx).mp (by simpa using h1)

/-- The scaled significand lies in [2^52, 2^53). -/
theorem significand_bounds (x : ℚ) (hx : 0 < x) :
    (2 : ℚ) ^ (52 : Int) ≤ x / (2 : ℚ) ^ (Int.log 2 x - 52) ∧
    x / (2 : ℚ) ^ (Int.log 2 x - 52) < (2 : ℚ) ^ (53 : Int) := by
  obtain ⟨h1, h2⟩ := log_two_bounds x hx
  have hu := two_zpow_pos (Int.log 2 x - 52)
  constructor
  · rw [le_div_iff₀ hu, ← zpow_add₀ (by norm_num : (2 : ℚ) ≠ 0)]
    simpa using h1
  · rw [div_lt_iff₀ hu, ← zpow_add₀ (by norm_num : (2 : ℚ) ≠ 0)]
    have : (53 : Int) + (Int.log 2 x - 52) = Int.log 2 x + 1 := by ring
    rw [this]
    exact h2

theorem round_binary64_pos_bounds (x : ℚ) (hx : 0 < x) :
    (2 : ℚ) ^ Int.log 2 x ≤ round_binary64_pos x ∧
    round_binary64_pos x ≤ (2 : ℚ) ^ (Int.log 2 x + 1) := by
  obtain ⟨h1, h2⟩ := significand_bounds x hx
  have hu := two_zpow_pos (Int.log 2 x - 52)
  have hlo : ((2 : Int) ^ 52 : Int) ≤ round_half_even (x / (2 : ℚ) ^ (Int.log 2 x - 52)) := by
    refine le_trans ?_ (floor_le_round_half_even _)
    rw [Int.le_floor]
    have : (((2 : Int) ^ 52 : Int) : ℚ) = (2 : ℚ) ^ (52 : Int) := by norm_num
    rw [this]
    exact h1
  have hhi : round_half_even (x / (2 : ℚ) ^ (Int.log 2 x - 52)) ≤ ((2 : Int) ^ 53 : Int) := by
    refine le_trans (round_half_even_le _) ?_
    have hfl : ⌊x / (2 : ℚ) ^ (Int.log 2 x - 52)⌋ < ((2 : Int) ^ 53 : Int) := by
      rw [Int.floor_lt]
      have : (((2 : Int) ^ 53 : Int) : ℚ) = (2 : ℚ) ^ (53 : Int) := by norm_num
      rw [this]
      exact h2
    omega
  unfold round_binary64_pos
  constructor
  · have e1 : (2 : ℚ) ^ Int.log 2 x = (((2 : Int) ^ 52 : Int) : ℚ) * (2 : ℚ) ^ (Int.log 2 x - 52) := by
      have : (((2 : Int) ^ 52 : Int) : ℚ) = (2 : ℚ) ^ (52 : Int) := by norm_num
      rw [this, ← zpow_add₀ (by norm_num : (2 : ℚ) ≠ 0)]
      congr 1
      ring
    rw [e1]
    exact mul_le_mul_of_nonneg_right (by exact_mod_cast hlo) (le_of_lt hu)
  · have e1 : (2 : ℚ) ^ (Int.log 2 x + 1)
        = (((2 : Int) ^ 53 : Int) : ℚ) * (2 : ℚ) ^ (Int.log 2 x - 52) := by
      have : (((2 : Int) ^ 53 : Int) : ℚ) = (2 : ℚ) ^ (53 : Int) := by norm_num
      rw [this, ← zpow_add₀ (by norm_num : (2 : ℚ) ≠ 0)]
      congr 1
      ring
    rw [e1]
    exact mul_le_mul_of_nonneg_right (by exact_mod_cast hhi) (le_of_lt hu)

theorem round_binary64_pos_mono (x y : ℚ) (hx : 0 < x) (hxy : x ≤ y) :
    round_binary64_pos x ≤ round_binary64_pos y := by
  have hy : 0 < y := lt_of_lt_of_le hx hxy
  have hlog : Int.log 2 x ≤ Int.log 2 y := Int.log_mono_right hx hxy
  rcases lt_or_eq_of_le hlog with hlt | heq
  · calc round_binary64_pos x ≤ (2 : ℚ) ^ (Int.log 2 x + 1) := (round_binary64_pos_bounds x hx).2
      _ ≤ (2 : ℚ) ^ Int.log 2 y := zpow_le_zpow_right₀ (by norm_num) (by omega)
      _ ≤ round_binary64_pos y := (round_binary64_pos_bounds y hy).1
  · unfold round_binary64_pos
    rw [heq]
    have hu := two_zpow_pos (Int.log 2 y - 52)
    apply mul_le_mul_of_nonneg_right _ (le_of_lt hu)
    exact_mod_cast round_half_even_mono (div_le_div_of_nonneg_right hxy (le_of_lt hu))

theorem round_binary64_nonneg (x : ℚ) (hx : 0 ≤ x) : 0 ≤ round_binary64 x := by
  unfold round_binary64
  split_ifs with h0 hp
  · exact le_refl _
  · exact le_trans (le_of_lt (two_zpow_pos _)) (round_binary64_pos_bounds x hp).1
  · exact absurd (lt_of_le_of_ne hx (Ne.symm h0)) hp

theorem round_binary64_mono (x y : ℚ) (hx : 0 ≤ x) (hxy : x ≤ y) :
    round_binary64 x ≤ round_binary64 y := by
  rcases eq_or_lt_of_le hx with h0 | hpos
  · subst h0
    simpa [round_binary64] using round_binary64_nonneg y hxy
  · have hy : 0 < y := lt_of_lt_of_le hpos hxy
    simp only [round_binary64, ne_of_gt hpos, ne_of_gt hy, hpos, hy, if_true, if_false]
    exact round_binary64_pos_mono x y hpos hxy

/-- A number `m * 2^k` with an integer `2^52 ≤ m < 2^53` is a binary64 value. -/
theorem round_binary64_exact (m : Int) (k : Int) (h1 : 2 ^ 52 ≤ m) (h2 : m < 2 ^ 53) :
    round_binary64 ((m : ℚ) * (2 : ℚ) ^ k) = (m : ℚ) * (2 : ℚ) ^ k := by
  have hk := two_zpow_pos k
  have hm : (0 : ℚ) < (m : ℚ) := by
    have : (0 : Int) < m := by omega
    exact_mod_cast this
  have hpos : (0 : ℚ) < (m : ℚ) * (2 : ℚ) ^ k := mul_pos hm hk
  have hlog : Int.log 2 ((m : ℚ) * (2 : ℚ) ^ k) = 52 + k := by
    apply log_two_eq
    · rw [zpow_add₀ (by norm_num : (2 : ℚ) ≠ 0)]
      apply mul_le_mul_of_nonneg_right _ (le_of_lt hk)
      have h52 : (2 : ℚ) ^ (52 : Int) = ((2 ^ 52 : Int) : ℚ) := by norm_num
      rw [h52]
      exact_mod_cast h1
    · have e : (52 + k + 1 : Int) = 53 + k := by ring
      rw [e, zpow_add₀ (by norm_num : (2 : ℚ) ≠ 0)]
      apply mul_lt_mul_of_pos_right _ hk
      have h53 : (2 : ℚ) ^ (53 : Int) = ((2 ^ 53 : Int) : ℚ) := by norm_num
      rw [h53]
      exact_mod_cast h2
  simp only [round_binary64, ne_of_gt hpos, hpos, if_true, if_false, round_binary64_pos, hlog]
  have e : (52 + k - 52 : Int) = k := by ring
  rw [e, mul_div_assoc, div_self (ne_of_gt hk), mul_one, round_half_even_int]

theorem round_binary64_scale (x : ℚ) (hx : 0 < x) (k : Int) :
    round_binary64 (x * (2 : ℚ) ^ k) = round_binary64 x * (2 : ℚ) ^ k := by
  have hk := two_zpow_pos k
  have hpos : 0 < x * (2 : ℚ) ^ k := mul_pos hx hk
  obtain ⟨h1, h2⟩ := log_two_bounds x hx
  have hlog : Int.log 2 (x * (2 : ℚ) ^ k) = Int.log 2 x + k := by
    apply log_two_eq
    · rw [zpow_add₀ (by norm_num : (2 : ℚ) ≠ 0)]
      exact mul_le_mul_of_nonneg_right h1 (le_of_lt hk)
    · have e : (Int.log 2 x + k + 1 : Int) = (Int.log 2 x + 1) + k := by ring
      rw [e, zpow_add₀ (by norm_num : (2 : ℚ) ≠ 0)]
      exact mul_lt_mul_of_pos_right h2 hk
  simp only [round_binary64, ne_of_gt hpos, ne_of_gt hx, hpos, hx, if_true, if_false,
    round_binary64_pos, hlog]
  have e : (Int.log 2 x + k - 52 : Int) = (Int.log 2 x - 52) + k := by ring
  rw [e, zpow_add₀ (by norm_num : (2 : ℚ) ≠ 0)]
  have hu := two_zpow_pos (Int.log 2 x - 52)
  have hdiv : x * (2 : ℚ) ^ k / ((2 : ℚ) ^ (Int.log 2 x - 52) * (2 : ℚ) ^ k)
      = x / (2 : ℚ) ^ (Int.log 2 x - 52) := by
    field_simp
    ring
  rw [hdiv]
  ring

/-! ## Claims about the file sequencer -/

/-- C6 fails on the code in its scanning part. For every sequence number `n` with
`0 ≤ n ≤ 999999` the name formatted by `open_file` is exactly `REC`, the six decimal digits
of `n` (zero padded) and `.mjpeg`, and the path handed to `open` is `folder`, a slash and
the name; the directives `REC%d` of the pattern convert that name to `n`. But the call of
`sscanf` in `get_file_number` stores the converted number through the uninitialised `int`
`j` passed by value: on that name the call, and with it every scan of a directory that
holds the name, is undefined and yields no number. -/
theorem file_name_format_and_scan (n : Int) (h0 : 0 ≤ n) (h1 : n ≤ 999999) :
    format_file_name n
      = ['R', 'E', 'C'] ++ six_digits n.toNat ++ ['.', 'm', 'j', 'p', 'e', 'g'] ∧
    convert_REC_d (format_file_name n) = some n ∧
    sscanf_REC_d (format_file_name n) = SscanfCall.undefined ∧
    (∀ (before after : List (List Char)) (type : Int),
      get_file_number (some (before ++ format_file_name n :: after)) type = none) ∧
    (∀ (st : State) (open_ret : Int), get_file_number (read_dir st) NEW_FILE = some n →
      ∃ r, open_file st open_ret = some r ∧
        r.2.file_name = some (format_file_name n) ∧
        r.2.log = st.log ++ [Event.sys_open (st.folder ++ ['/'] ++ format_file_name n)]) := by
  have hfmt := format_file_name_six n h0 h1
  have hconv : convert_REC_d (format_file_name n) = some n := by
    rw [hfmt, convert_six_digits n.toNat (by omega)]
    congr 1
    omega
  refine ⟨hfmt, hconv, ?_, ?_, ?_⟩
  · simp only [sscanf_REC_d, hconv]
  · intro before after type
    rw [get_file_number_eq]
    simp [hconv]
  · intro st open_ret hn
    refine ⟨_, open_file_of_number st open_ret n hn, ?_, ?_⟩
    · show (sys_open _ _ _).file_name = _
      rw [(sys_open_fields _ _ _).1]
    · show (sys_open _ _ _).log = _
      rw [sys_open_log]
      simp [format_path]

/-- Instance of `file_name_format_and_scan` at the sequence number 0: `open_file` in the empty
directory `/tmp` stores the name `REC000000.mjpeg` and opens `/tmp/REC000000.mjpeg`; the scan
of that name is undefined. -/
theorem file_name_format_and_scan_witness :
    format_file_name 0 = "REC000000.mjpeg".toList ∧
    sscanf_REC_d "REC000000.mjpeg".toList = SscanfCall.undefined ∧
    get_file_number (some ([] ++ "REC000000.mjpeg".toList :: [])) NEW_FILE = none ∧
    ∃ r, open_file (initial_state true []) 3 = some r ∧
      r.2.file_name = some "REC000000.mjpeg".toList ∧
      r.2.log = [Event.sys_open "/tmp/REC000000.mjpeg".toList] := by
  have hf : format_file_name 0 = "REC000000.mjpeg".toList := by decide
  obtain ⟨-, -, h3, h4, h5⟩ := file_name_format_and_scan 0 (by decide) (by decide)
  obtain ⟨r, hr, h6, h7⟩ := h5 (initial_state true []) 3 (by decide)
  rw [hf] at h3 h6 h7
  have h8 := h4 [] [] NEW_FILE
  rw [hf] at h8
  exact ⟨hf, h3, h8, r, hr, h6, h7.trans (by decide)⟩

/-- C2 fails on the code. With the entries `REC000003.mjpeg`, `REC000007.mjpeg`, `notes.txt`
(the claim's witness, for which it states 8) and with the single entry `REC000000.mjpeg`,
`get_file_number(folder, NEW_FILE)` has no defined result: the first name that converts
makes `sscanf` store through the uninitialised `int` `j`. A result is defined exactly when
no name converts, and it is then 0, as it is when the directory cannot be opened. -/
theorem get_file_number_new_undefined :
    get_file_number (some ["REC000003.mjpeg".toList, "REC000007.mjpeg".toList,
      "notes.txt".toList]) NEW_FILE = none ∧
    get_file_number (some ["REC000000.mjpeg".toList]) NEW_FILE = none ∧
    get_file_number (some [".".toList, "..".toList, "notes.txt".toList]) NEW_FILE = some 0 ∧
    get_file_number none NEW_FILE = some 0 ∧
    ∀ names : List (List Char), get_file_number (some names) NEW_FILE =
      if names.all (fun d => (convert_REC_d d).isNone) then some 0 else none := by
  refine ⟨by decide, by decide, by decide, by decide, ?_⟩
  intro names
  simp only [get_file_number_eq, if_true]

/-- C3 fails on the code. With the entries `REC000003.mjpeg`, `REC000007.mjpeg`, `notes.txt`
(the claim's witness, for which it states 3), `get_file_number(folder, OLDEST_FILE)` has no
defined result: the first name that converts makes `sscanf` store through the uninitialised
`int` `j`. A result is defined exactly when no name converts, and it is then the
sentinel 999999. -/
theorem get_file_number_oldest_undefined :
    get_file_number (some ["REC000003.mjpeg".toList, "REC000007.mjpeg".toList,
      "notes.txt".toList]) OLDEST_FILE = none ∧
    get_file_number (some ["REC000003.mjpeg".toList]) OLDEST_FILE = none ∧
    get_file_number (some [".".toList, "..".toList, "notes.txt".toList]) OLDEST_FILE
      = some 999999 ∧
    ∀ names : List (List Char), get_file_number (some names) OLDEST_FILE =
      if names.all (fun d => (convert_REC_d d).isNone) then some 999999 else none := by
  refine ⟨by decide, by decide, by decide, ?_⟩
  intro names
  have hne : ¬ (OLDEST_FILE = NEW_FILE) := by decide
  simp only [get_file_number_eq, if_neg hne]

/-! ## Claims about eviction and rotation -/

theorem output_init_empty_folder :
    output_init (initial_state true []) [GetoptResult.option 5 "50".toList] 1 3
      = some (0, started_in_empty_folder) := by
  decide

theorem delete_oldest_file_some (st : State) (r : Int × State)
    (h : delete_oldest_file st = some r) :
    ∃ name, st.file_name = some name ∧
      r.2.log = st.log ++ [Event.sys_remove (format_path st.folder name)] := by
  unfold delete_oldest_file at h
  cases hn : get_file_number (read_dir st) OLDEST_FILE with
  | none => rw [hn] at h; cases h
  | some n =>
    rw [hn] at h
    cases hf : st.file_name with
    | none => simp [hf] at h
    | some name =>
      refine ⟨name, rfl, ?_⟩
      simp only [hf] at h
      have hlog : (sys_remove st (format_path st.folder name)).2.log
          = st.log ++ [Event.sys_remove (format_path st.folder name)] := by
        unfold sys_remove
        cases resolve st.folder (format_path st.folder name) with
        | none => rfl
        | some nm =>
          simp only
          split_ifs <;> rfl
      split_ifs at h <;> cases h <;> exact hlog

/-- C1 fails on the code. The recorder is started with `-s 50` in the empty directory `/tmp`
and creates `REC000000.mjpeg`, the oldest and only recording. In that directory
`delete_oldest_file` is undefined, because `get_file_number` scans the name
`REC000000.mjpeg`; the oldest file is not removed. When the directory holds no recording
any more (here only `notes.txt`) the oldest number is 999999, yet the path handed to
`remove` is `/tmp/REC000000.mjpeg`, built from `file_name`, not `/tmp/REC999999.mjpeg`.
Whenever the function is defined, the path handed to `remove` is `folder/file_name`. -/
theorem delete_oldest_file_undefined_or_current :
    output_init (initial_state true []) [GetoptResult.option 5 "50".toList] 1 3
      = some (0, started_in_empty_folder) ∧
    get_file_number (read_dir started_in_empty_folder) OLDEST_FILE = none ∧
    delete_oldest_file started_in_empty_folder = none ∧
    get_file_number (read_dir { started_in_empty_folder with
        entries := [("notes.txt".toList, 10)] }) OLDEST_FILE = some 999999 ∧
    format_path "/tmp".toList (format_file_name 999999) = "/tmp/REC999999.mjpeg".toList ∧
    delete_oldest_file { started_in_empty_folder with entries := [("notes.txt".toList, 10)] }
      = some (1, { started_in_empty_folder with
          entries := [("notes.txt".toList, 10)]
          log := [Event.sys_open "/tmp/REC000000.mjpeg".toList,
                  Event.sys_remove "/tmp/REC000000.mjpeg".toList] }) ∧
    ∀ (st : State) (r : Int × State), delete_oldest_file st = some r →
      ∃ name, st.file_name = some name ∧
        r.2.log = st.log ++ [Event.sys_remove (format_path st.folder name)] := by
  refine ⟨by decide, by decide, by decide, by decide, by decide, by decide, ?_⟩
  exact delete_oldest_file_some

theorem rotate_fields (st st1 : State) (open_ret : Int)
    (h : rotate st open_ret = Step.running st1 ∨ rotate st open_ret = Step.returned st1) :
    st1.usage_percentage = st.usage_percentage ∧
    st1.max_frame_size = st.max_frame_size ∧
    st1.frame = st.frame ∧
    st1.file_name = some (format_file_name 0) ∧
    st1.log = st.log ++ [Event.sys_close st.fd,
      Event.sys_open (format_path st.folder (format_file_name 0))] := by
  have hex : ∃ r, open_file (sys_close st st.fd) open_ret = some r ∧ r.2 = st1 := by
    simp only [rotate] at h
    cases ho : open_file (sys_close st st.fd) open_ret with
    | none => rw [ho] at h; rcases h with h | h <;> cases h
    | some r =>
      rw [ho] at h
      refine ⟨r, rfl, ?_⟩
      rcases h with h | h <;> simp only at h <;> split_ifs at h <;> cases h <;> rfl
  obtain ⟨r, ho, hr⟩ := hex
  obtain ⟨n, hn, -, hst⟩ := open_file_some _ _ _ ho
  have hn0 : n = 0 := get_file_number_new _ n hn
  subst hn0
  rw [← hr, hst]
  refine ⟨?_, ?_, ?_, ?_, ?_⟩
  · show (sys_open _ _ _).usage_percentage = _
    rw [(sys_open_fields _ _ _).2.2.2.1]
    rfl
  · show (sys_open _ _ _).max_frame_size = _
    rw [(sys_open_fields _ _ _).2.1]
    rfl
  · show (sys_open _ _ _).frame = _
    rw [(sys_open_fields _ _ _).2.2.1]
    rfl
  · show (sys_open _ _ _).file_name = _
    rw [(sys_open_fields _ _ _).1]
  · show (sys_open _ _ _).log = _
    rw [sys_open_log]
    simp [sys_close]

theorem rotate_ne_running (st : State) (open_ret : Int) :
    rotate st open_ret ≠ Step.running st := by
  intro h
  have hl := (rotate_fields st st open_ret (Or.inl h)).2.2.2.2
  have := congrArg List.length hl
  simp at this

/-- C4 fails on the code. The recorder is started in the empty directory `/tmp` and opens
`REC000000.mjpeg` (n = 0). The rotation closes descriptor 3 and calls `open_file`, whose
`get_file_number` scans the name `REC000000.mjpeg`: the behaviour is undefined and no file
with number 1 is opened. Whenever a rotation is defined and the worker goes on, the file it
has opened is again `REC000000.mjpeg`, never a higher number; with an unreadable directory
this reopens the current file with `O_TRUNC` and its 1000 bytes are lost. -/
theorem rotate_undefined_after_first_file :
    output_init (initial_state true []) [GetoptResult.option 5 "50".toList] 1 3
      = some (0, started_in_empty_folder) ∧
    rotate started_in_empty_folder 4 = Step.undefined ∧
    rotate { started_in_empty_folder with entries := [("REC000000.mjpeg".toList, 1000)] } 4
      = Step.undefined ∧
    (∀ (st st1 : State) (open_ret : Int), rotate st open_ret = Step.running st1 →
      st1.file_name = some "REC000000.mjpeg".toList) ∧
    rotate { started_in_empty_folder with
        dir_opens := false
        entries := [("REC000000.mjpeg".toList, 1000)] } 4
      = Step.running { started_in_empty_folder with
          fd := 4
          dir_opens := false
          entries := [("REC000000.mjpeg".toList, 0)]
          log := [Event.sys_open "/tmp/REC000000.mjpeg".toList, Event.sys_close 3,
                  Event.sys_open "/tmp/REC000000.mjpeg".toList] } := by
  refine ⟨by decide, by decide, by decide, ?_, by decide⟩
  intro st st1 open_ret h
  have hf := (rotate_fields st st1 open_ret (Or.inl h)).2.2.2.1
  rw [hf]
  decide

/-! ## Claims about configuration validation -/

theorem process_option_world (st st1 : State) (r : GetoptResult)
    (h : process_option st r = Except.ok st1) :
    st1.entries = st.entries ∧ st1.log = st.log := by
  cases r with
  | unrecognized => simp [process_option] at h
  | option idx optarg =>
    simp only [process_option] at h
    split_ifs at h <;> cases h <;> exact ⟨rfl, rfl⟩

theorem parse_options_world (opts : List GetoptResult) : ∀ (st st1 : State),
    parse_options st opts = Except.ok st1 → st1.entries = st.entries ∧ st1.log = st.log := by
  induction opts with
  | nil =>
    intro st st1 h
    simp only [parse_options] at h
    injection h with h
    subst h
    exact ⟨rfl, rfl⟩
  | cons r rest ih =>
    intro st st1 h
    simp only [parse_options] at h
    cases hp : process_option st r with
    | error e => rw [hp] at h; exact absurd h (by simp)
    | ok st2 =>
      rw [hp] at h
      obtain ⟨h1, h2⟩ := process_option_world st st2 r hp
      obtain ⟨h3, h4⟩ := ih st2 st1 h
      exact ⟨h3.trans h1, h4.trans h2⟩

theorem parse_options_append (pre : List GetoptResult) : ∀ (st0 st : State)
    (rest : List GetoptResult), parse_options st0 pre = Except.ok st →
    parse_options st0 (pre ++ rest) = parse_options st rest := by
  induction pre with
  | nil =>
    intro st0 st rest h
    simp only [parse_options] at h
    injection h with h
    subst h
    rfl
  | cons r pre ih =>
    intro st0 st rest h
    simp only [parse_options, List.cons_append] at h ⊢
    cases hp : process_option st0 r with
    | error e => rw [hp] at h; exact absurd h (by simp)
    | ok st2 =>
      rw [hp] at h
      exact ih st2 st rest h

theorem process_option_size (st : State) (idx : Nat) (hidx : idx = 4 ∨ idx = 5)
    (optarg : List Char) :
    process_option st (GetoptResult.option idx optarg) =
      if atoi optarg < 0 ∨ atoi optarg > 99 then
        Except.error (-1, { st with usage_percentage := atoi optarg })
      else Except.ok { st with usage_percentage := atoi optarg } := by
  rcases hidx with rfl | rfl <;> simp [process_option]

/-- C5. Validation of the size option in `output_init`. When the option loop reaches a
size option (`s` or `size`, index 4 or 5) whose argument converts to `f = atoi(optarg)`,
the option is accepted, with `usage_percentage` set to `f`, iff `0 ≤ f ≤ 99`. For `f < 0` or
`f > 99`, `output_init` returns -1 without calling `open_file`: no `open` call is logged and
the directory entries are unchanged. -/
theorem output_init_size_validation (st0 st : State) (pre post : List GetoptResult)
    (hpre : parse_options st0 pre = Except.ok st) (idx : Nat) (hidx : idx = 4 ∨ idx = 5)
    (optarg : List Char) (incnt open_ret : Int) :
    ((∃ st1, process_option st (GetoptResult.option idx optarg) = Except.ok st1) ↔
      (0 ≤ atoi optarg ∧ atoi optarg ≤ 99)) ∧
    ((0 ≤ atoi optarg ∧ atoi optarg ≤ 99) →
      process_option st (GetoptResult.option idx optarg)
        = Except.ok { st with usage_percentage := atoi optarg }) ∧
    ((atoi optarg < 0 ∨ 99 < atoi optarg) →
      ∃ r, output_init st0 (pre ++ GetoptResult.option idx optarg :: post) incnt open_ret
          = some r ∧
        r.1 = -1 ∧ r.2.entries = st0.entries ∧ r.2.log = st0.log) := by
  have hsize := process_option_size st idx hidx optarg
  refine ⟨?_, ?_, ?_⟩
  · constructor
    · rintro ⟨st1, h1⟩
      rw [hsize] at h1
      by_cases hbad : atoi optarg < 0 ∨ atoi optarg > 99
      · rw [if_pos hbad] at h1
        exact absurd h1 (by simp)
      · omega
    · intro hr
      have hbad : ¬ (atoi optarg < 0 ∨ atoi optarg > 99) := by omega
      exact ⟨_, by rw [hsize, if_neg hbad]⟩
  · intro hr
    have hbad : ¬ (atoi optarg < 0 ∨ atoi optarg > 99) := by omega
    rw [hsize, if_neg hbad]
  · intro hr
    have hbad : atoi optarg < 0 ∨ atoi optarg > 99 := by omega
    obtain ⟨he, hl⟩ := parse_options_world pre st0 st hpre
    have hrun : output_init st0 (pre ++ GetoptResult.option idx optarg :: post) incnt open_ret
        = some (-1, { st with usage_percentage := atoi optarg }) := by
      unfold output_init
      rw [parse_options_append pre st0 st _ hpre]
      simp only [parse_options, hsize, if_pos hbad]
    exact ⟨_, hrun, rfl, he, hl⟩

/-- Instance of `output_init_size_validation`: the recorder is started in `/tmp` holding
`REC000005.mjpeg` with the single option `-size 150`. -/
theorem output_init_size_validation_witness :
    ∃ r, output_init (initial_state true [("REC000005.mjpeg".toList, 500)])
        ([] ++ GetoptResult.option 5 "150".toList :: []) 1 3 = some r ∧
      r.1 = -1 ∧ r.2.entries = [("REC000005.mjpeg".toList, 500)] ∧ r.2.log = [] :=
  (output_init_size_validation (initial_state true [("REC000005.mjpeg".toList, 500)])
    (initial_state true [("REC000005.mjpeg".toList, 500)]) [] [] rfl 5 (Or.inr rfl)
    "150".toList 1 3).2.2 (Or.inr (by decide))

/-! ## Claims about the periodic check -/

theorem eviction_check_statvfs_failure (st : State) (inp : Input)
    (h1 : st.usage_percentage ≤ 99) (hf : inp.vfs_free = none) :
    eviction_check st inp = Step.running st := by
  have hq : ¬ ((100 : ℚ) < (st.usage_percentage : ℚ)) := by
    have : (st.usage_percentage : ℚ) ≤ 99 := by exact_mod_cast h1
    linarith
  simp [eviction_check, hf, get_disk_percentage_free, Dbl.lt, hq]

/-- C7, as the code has it. When the filesystem statistics query fails,
`get_disk_percentage_free` returns 100, and for every configured floor in [0,99] the periodic
check does not evict: the eviction part leaves the state as it is, the periodic check is the
rotation part followed by the reset of the counter, and no `remove` call is added to the
log. -/
theorem statvfs_failure_never_evicts (st : State) (inp : Input)
    (h0 : 0 ≤ st.usage_percentage) (h1 : st.usage_percentage ≤ 99)
    (hf : inp.vfs_free = none) :
    get_disk_percentage_free inp.vfs_free = Dbl.fin 100 ∧
    eviction_check st inp = Step.running st ∧
    periodic_check st inp =
      (match rotation_check st inp with
        | Step.running st1 => Step.running { st1 with counter := 0 }
        | other => other) ∧
    ∀ st2, (periodic_check st inp = Step.running st2 ∨
        periodic_check st inp = Step.returned st2) →
      remove_calls st2.log = remove_calls st.log := by
  have hperiodic : periodic_check st inp =
      (match rotation_check st inp with
        | Step.running st1 => Step.running { st1 with counter := 0 }
        | other => other) := by
    unfold periodic_check
    cases hr : rotation_check st inp with
    | running st1 =>
      have hu : st1.usage_percentage = st.usage_percentage := by
        unfold rotation_check at hr
        split_ifs at hr
        · exact (rotate_fields st st1 _ (Or.inl hr)).1
        · cases hr; rfl
      simp only [eviction_check_statvfs_failure st1 inp (by omega) hf]
    | returned st1 => rfl
    | undefined => rfl
  refine ⟨by rw [hf]; rfl, eviction_check_statvfs_failure st inp h1 hf, hperiodic, ?_⟩
  intro st2 h2
  rw [hperiodic] at h2
  unfold rotation_check at h2
  split_ifs at h2
  · cases hr : rotate st inp.open_ret with
    | running st1 =>
      rw [hr] at h2
      have hl := (rotate_fields st st1 _ (Or.inl hr)).2.2.2.2
      rcases h2 with h2 | h2 <;> cases h2
      simp [remove_calls, hl, List.filter_append]
    | returned st1 =>
      rw [hr] at h2
      have hl := (rotate_fields st st1 _ (Or.inr hr)).2.2.2.2
      rcases h2 with h2 | h2 <;> cases h2
      simp [remove_calls, hl, List.filter_append]
    | undefined =>
      rw [hr] at h2
      rcases h2 with h2 | h2 <;> cases h2
  · rcases h2 with h2 | h2 <;> cases h2
    rfl

/-- Instance of `statvfs_failure_never_evicts` for the recorder started with `-s 50`. -/
theorem statvfs_failure_never_evicts_witness :
    eviction_check started_in_empty_folder input_stat_failure
      = Step.running started_in_empty_folder :=
  (statvfs_failure_never_evicts started_in_empty_folder input_stat_failure
    (by decide) (by decide) rfl).2.1

/-- C7 fails as stated. With the floor 50 and a failing statistics query the periodic check
only resets the counter: `remove` is not called and the directory keeps its file. -/
theorem statvfs_failure_eviction_counterexample :
    started_in_empty_folder.usage_percentage = 50 ∧
    input_stat_failure.vfs_free = none ∧
    periodic_check started_in_empty_folder input_stat_failure
      = Step.running { started_in_empty_folder with counter := 0 } ∧
    remove_calls ({ started_in_empty_folder with counter := 0 } : State).log = 0 ∧
    ({ started_in_empty_folder with counter := 0 } : State).entries
      = [("REC000000.mjpeg".toList, 0)] := by
  refine ⟨by decide, rfl, ?_, by decide, by decide⟩
  have he := eviction_check_statvfs_failure started_in_empty_folder input_stat_failure
    (by decide) rfl
  have hr : rotation_check started_in_empty_folder input_stat_failure
      = Step.running started_in_empty_folder := by
    have hq : ¬ ((25 : ℚ) < 0) := by norm_num
    simp [rotation_check, input_stat_failure, get_current_file_percentage, Dbl.gt,
      FILE_PERCENTAGE_THRESHOLD, hq]
  simp only [periodic_check, hr, he]

/-! ## Claims about cleanup -/

theorem close_calls_append (l1 l2 : List Event) :
    close_calls (l1 ++ l2) = close_calls l1 + close_calls l2 := by
  simp [close_calls, List.filter_append]

theorem free_calls_append (l1 l2 : List Event) :
    free_calls (l1 ++ l2) = free_calls l1 + free_calls l2 := by
  simp [free_calls, List.filter_append]

theorem worker_cleanup_first (st : State) (name : List Char)
    (hname : st.file_name = some name) (hfirst : st.first_run = true) :
    (worker_cleanup st).file_name = some name ∧
    (worker_cleanup st).first_run = false ∧
    close_calls (worker_cleanup st).log = close_calls st.log + 2 ∧
    free_calls (worker_cleanup st).log ≤ free_calls st.log + 1 := by
  cases hfr : st.frame with
  | none =>
    simp [worker_cleanup, sys_close, hname, hfirst, hfr, close_calls_append,
      free_calls_append, close_calls, free_calls]
  | some c =>
    simp [worker_cleanup, sys_close, hname, hfirst, hfr, close_calls_append,
      free_calls_append, close_calls, free_calls]

theorem worker_cleanup_later (st : State) (name : List Char)
    (hname : st.file_name = some name) (hfirst : st.first_run = false) :
    worker_cleanup st = { st with log := st.log ++ [Event.sys_close st.fd] } := by
  simp [worker_cleanup, sys_close, hname, hfirst]

theorem worker_cleanup_iterate (st : State) (name : List Char)
    (hname : st.file_name = some name) (hfirst : st.first_run = true) (k : Nat) :
    (worker_cleanup^[k + 1] st).file_name = some name ∧
    (worker_cleanup^[k + 1] st).first_run = false ∧
    close_calls (worker_cleanup^[k + 1] st).log = close_calls st.log + (k + 2) ∧
    free_calls (worker_cleanup^[k + 1] st).log ≤ free_calls st.log + 1 := by
  induction k with
  | zero => simpa using worker_cleanup_first st name hname hfirst
  | succ k ih =>
    obtain ⟨h1, h2, h3, h4⟩ := ih
    rw [Function.iterate_succ_apply', worker_cleanup_later _ name h1 h2]
    refine ⟨h1, h2, ?_, ?_⟩
    · rw [close_calls_append, h3]
      simp [close_calls]
      omega
    · rw [free_calls_append]
      simpa [free_calls] using h4

/-- C9 fails on the code. For the recorder whose file was opened by `output_init`, one
invocation of `worker_cleanup` calls `close(fd)` twice, once before the `first_run` test and
once at the end, and every later invocation calls `close(fd)` again before it returns on
`first_run`: after 1, 2 and 3 invocations `close` has been called 2, 3 and 4 times on
descriptor 3 and the log has grown each time. -/
theorem worker_cleanup_closes_repeatedly :
    started_in_empty_folder.file_name = some "REC000000.mjpeg".toList ∧
    started_in_empty_folder.fd = 3 ∧
    (worker_cleanup started_in_empty_folder).log
      = started_in_empty_folder.log ++ [Event.sys_close 3, Event.sys_close 3] ∧
    (worker_cleanup (worker_cleanup started_in_empty_folder)).log
      = (worker_cleanup started_in_empty_folder).log ++ [Event.sys_close 3] ∧
    close_calls (worker_cleanup^[1] started_in_empty_folder).log = 2 ∧
    close_calls (worker_cleanup^[2] started_in_empty_folder).log = 3 ∧
    close_calls (worker_cleanup^[3] started_in_empty_folder).log = 4 := by
  refine ⟨?_, ?_, ?_, ?_, ?_, ?_, ?_⟩ <;> decide

/-! ## Claims about the rotation threshold -/

theorem round_binary64_one : round_binary64 1 = 1 := by
  have h := round_binary64_exact (2 ^ 52) (-52) (le_refl _) (by norm_num)
  have e : (((2 ^ 52 : Int) : ℚ)) * (2 : ℚ) ^ (-52 : Int) = 1 := by norm_num
  rw [e] at h
  exact h

theorem round_binary64_quarter : round_binary64 (1 / 4) = 1 / 4 := by
  have h := round_binary64_exact (2 ^ 52) (-54) (le_refl _) (by norm_num)
  have e : (((2 ^ 52 : Int) : ℚ)) * (2 : ℚ) ^ (-54 : Int) = 1 / 4 := by norm_num
  rw [e] at h
  exact h

theorem round_binary64_25 : round_binary64 25 = 25 := by
  have h := round_binary64_exact (25 * 2 ^ 48) (-48) (by norm_num) (by norm_num)
  have e : (((25 * 2 ^ 48 : Int) : ℚ)) * (2 : ℚ) ^ (-48 : Int) = 25 := by norm_num
  rw [e] at h
  exact h

theorem round_binary64_half : round_binary64 (1 / 2) = 1 / 2 := by
  have h := round_binary64_exact (2 ^ 52) (-53) (le_refl _) (by norm_num)
  have e : (((2 ^ 52 : Int) : ℚ)) * (2 : ℚ) ^ (-53 : Int) = 1 / 2 := by norm_num
  rw [e] at h
  exact h

theorem round_binary64_above_25 :
    round_binary64 (25 + (2 : ℚ) ^ (-48 : Int)) = 25 + (2 : ℚ) ^ (-48 : Int) := by
  have h := round_binary64_exact (25 * 2 ^ 48 + 1) (-48) (by norm_num) (by norm_num)
  have e : (((25 * 2 ^ 48 + 1 : Int) : ℚ)) * (2 : ℚ) ^ (-48 : Int)
      = 25 + (2 : ℚ) ^ (-48 : Int) := by norm_num
  rw [e] at h
  exact h

/-- Every natural number up to `2 ^ 53` is a binary64 value. -/
theorem round_binary64_nat (n : ℕ) (hn : n ≤ 2 ^ 53) : round_binary64 (n : ℚ) = (n : ℚ) := by
  rcases Nat.eq_zero_or_pos n with h0 | hpos
  · subst h0
    simp [round_binary64]
  · rcases Nat.lt_or_eq_of_le hn with hlt | heq
    · have he1 : 2 ^ Nat.log 2 n ≤ n := Nat.pow_log_le_self 2 (Nat.pos_iff_ne_zero.mp hpos)
      have he2 : n < 2 ^ (Nat.log 2 n + 1) := Nat.lt_pow_succ_log_self (by norm_num) n
      have he : Nat.log 2 n ≤ 52 := by
        by_contra hcon
        have h53 : 53 ≤ Nat.log 2 n := by omega
        have : 2 ^ 53 ≤ 2 ^ Nat.log 2 n := Nat.pow_le_pow_right (by norm_num) h53
        omega
      obtain ⟨d, hd⟩ : ∃ d, Nat.log 2 n + d = 52 := ⟨52 - Nat.log 2 n, by omega⟩
      have hm1 : 2 ^ 52 ≤ n * 2 ^ d := by
        calc 2 ^ 52 = 2 ^ Nat.log 2 n * 2 ^ d := by rw [← pow_add, hd]
          _ ≤ n * 2 ^ d := Nat.mul_le_mul_right _ he1
      have hm2 : n * 2 ^ d < 2 ^ 53 := by
        calc n * 2 ^ d < 2 ^ (Nat.log 2 n + 1) * 2 ^ d :=
              Nat.mul_lt_mul_of_pos_right he2 (by positivity)
          _ = 2 ^ 53 := by rw [← pow_add]; congr 1; omega
      have h := round_binary64_exact ((n * 2 ^ d : ℕ) : Int) (-(d : Int))
        (by exact_mod_cast hm1) (by exact_mod_cast hm2)
      have e : ((((n * 2 ^ d : ℕ) : Int) : ℚ)) * (2 : ℚ) ^ (-(d : Int)) = (n : ℚ) := by
        rw [zpow_neg, zpow_natCast]
        push_cast
        field_simp
      rw [e] at h
      exact h
    · have h := round_binary64_exact (2 ^ 52) 1 (le_refl _) (by norm_num)
      have e : (((2 ^ 52 : Int) : ℚ)) * (2 : ℚ) ^ (1 : Int) = (n : ℚ) := by
        rw [heq]
        norm_num
      rw [e] at h
      exact h

theorem round_half_even_succ_le (n : Int) (m : ℚ) (h : (n : ℚ) + 1 / 2 < m) :
    n + 1 ≤ round_half_even m := by
  have hfl : n ≤ ⌊m⌋ := by
    rw [Int.le_floor]
    linarith
  rcases lt_or_eq_of_le hfl with hlt | heq
  · exact le_trans (by omega) (floor_le_round_half_even m)
  · have hfrac : (1 : ℚ) / 2 < m - (⌊m⌋ : ℚ) := by
      rw [← heq]
      linarith
    unfold round_half_even
    rw [if_neg (not_lt.mpr (le_of_lt hfrac)), if_pos hfrac]
    omega

/-- Above the midpoint between 1/4 and the next binary64 value, rounding does not give
1/4. -/
theorem round_binary64_above_quarter (x : ℚ)
    (h : 1 / 4 + (2 : ℚ) ^ (-55 : Int) < x) :
    1 / 4 + (2 : ℚ) ^ (-54 : Int) ≤ round_binary64 x := by
  have hxpos : 0 < x := lt_trans (by positivity) h
  by_cases hhalf : x < 1 / 2
  · have hlog : Int.log 2 x = -2 := by
      apply log_two_eq
      · have e : (2 : ℚ) ^ (-2 : Int) = 1 / 4 := by norm_num
        rw [e]
        have : (0 : ℚ) < (2 : ℚ) ^ (-55 : Int) := two_zpow_pos _
        linarith
      · have e : (2 : ℚ) ^ (-2 + 1 : Int) = 1 / 2 := by norm_num
        rw [e]
        exact hhalf
    have hsig : (((2 ^ 52 : Int) : ℚ)) + 1 / 2 < x / (2 : ℚ) ^ (-54 : Int) := by
      rw [lt_div_iff₀ (two_zpow_pos _)]
      have e : ((((2 ^ 52 : Int) : ℚ)) + 1 / 2) * (2 : ℚ) ^ (-54 : Int)
          = 1 / 4 + (2 : ℚ) ^ (-55 : Int) := by norm_num
      rw [e]
      exact h
    have hr := round_half_even_succ_le (2 ^ 52) _ hsig
    simp only [round_binary64, ne_of_gt hxpos, hxpos, if_true, if_false, round_binary64_pos,
      hlog]
    have e54 : (-2 - 52 : Int) = -54 := by norm_num
    rw [e54]
    have hrq : ((2 ^ 52 + 1 : Int) : ℚ) ≤ (round_half_even (x / (2 : ℚ) ^ (-54 : Int)) : ℚ) := by
      exact_mod_cast hr
    calc 1 / 4 + (2 : ℚ) ^ (-54 : Int)
        = ((2 ^ 52 + 1 : Int) : ℚ) * (2 : ℚ) ^ (-54 : Int) := by norm_num
      _ ≤ (round_half_even (x / (2 : ℚ) ^ (-54 : Int)) : ℚ) * (2 : ℚ) ^ (-54 : Int) :=
          mul_le_mul_of_nonneg_right hrq (le_of_lt (two_zpow_pos _))
  · have hge : (1 : ℚ) / 2 ≤ x := not_lt.mp hhalf
    have := round_binary64_mono (1 / 2) x (by norm_num) hge
    rw [round_binary64_half] at this
    have e : (2 : ℚ) ^ (-54 : Int) ≤ 1 / 4 := by norm_num
    linarith

/-- The percentage that `get_current_file_percentage` computes is above 25 whenever the
exact occupancy is above 25 and the capacity is below `2 ^ 53` bytes. -/
theorem current_file_percentage_gt (stfs : StatVfs) (size : Int)
    (hcap : 0 < (stfs.f_blocks * stfs.f_frsize) % 2 ^ 64)
    (hsmall : (stfs.f_blocks * stfs.f_frsize) % 2 ^ 64 < 2 ^ 53)
    (hocc : (25 : ℚ) < (size : ℚ) * 100 / (((stfs.f_blocks * stfs.f_frsize) % 2 ^ 64 : ℕ) : ℚ)) :
    ∃ p : ℚ, get_current_file_percentage (some stfs) (some size) = Dbl.fin p ∧ 25 < p := by
  set t : ℕ := (stfs.f_blocks * stfs.f_frsize) % 2 ^ 64 with ht
  have ht1 : (1 : ℚ) ≤ (t : ℚ) := by exact_mod_cast hcap
  have htpos : (0 : ℚ) < (t : ℚ) := lt_of_lt_of_le one_pos ht1
  have htlt : (t : ℚ) < (2 : ℚ) ^ (53 : Int) := by
    have h53 : (2 : ℚ) ^ (53 : Int) = ((2 ^ 53 : ℕ) : ℚ) := by norm_num
    rw [h53]
    exact_mod_cast hsmall
  have hft : round_binary64 (t : ℚ) = (t : ℚ) := round_binary64_nat t (le_of_lt hsmall)
  have hft1 : round_binary64 ((t + 1 : ℕ) : ℚ) = ((t + 1 : ℕ) : ℚ) :=
    round_binary64_nat (t + 1) (by omega)
  have hint : (t : Int) + 1 ≤ 4 * size := by
    rw [lt_div_iff₀ htpos] at hocc
    have h4 : ((t : Int) : ℚ) < ((4 * size : Int) : ℚ) := by
      push_cast
      linarith
    have : (t : Int) < 4 * size := by exact_mod_cast h4
    omega
  have hs4 : ((t + 1 : ℕ) : ℚ) * (2 : ℚ) ^ (-2 : Int) ≤ (size : ℚ) := by
    have e : (2 : ℚ) ^ (-2 : Int) = 1 / 4 := by norm_num
    rw [e]
    have : (((t : Int) + 1 : Int) : ℚ) ≤ ((4 * size : Int) : ℚ) := by exact_mod_cast hint
    push_cast at this ⊢
    linarith
  have hfs : ((t : ℚ) + 1) / 4 ≤ round_binary64 (size : ℚ) := by
    have hm := round_binary64_mono _ _ (by positivity) hs4
    rw [round_binary64_scale _ (by positivity) (-2), hft1] at hm
    have e : (2 : ℚ) ^ (-2 : Int) = 1 / 4 := by norm_num
    rw [e] at hm
    push_cast at hm
    linarith
  have hquot : 1 / 4 + (2 : ℚ) ^ (-55 : Int)
      < round_binary64 (size : ℚ) / round_binary64 (t : ℚ) := by
    rw [hft, lt_div_iff₀ htpos]
    have e55 : (2 : ℚ) ^ (-55 : Int) * (2 : ℚ) ^ (53 : Int) = 1 / 4 := by norm_num
    have hlt : (2 : ℚ) ^ (-55 : Int) * (t : ℚ) < 1 / 4 := by
      calc (2 : ℚ) ^ (-55 : Int) * (t : ℚ) < (2 : ℚ) ^ (-55 : Int) * (2 : ℚ) ^ (53 : Int) :=
            mul_lt_mul_of_pos_left htlt (two_zpow_pos _)
        _ = 1 / 4 := e55
    linarith
  have hq := round_binary64_above_quarter _ hquot
  have hq100 : 25 + (2 : ℚ) ^ (-48 : Int)
      ≤ round_binary64 (round_binary64 (size : ℚ) / round_binary64 (t : ℚ)) * 100 := by
    have e : ((1 : ℚ) / 4 + (2 : ℚ) ^ (-54 : Int)) * 100
        = 25 + 100 * (2 : ℚ) ^ (-54 : Int) := by ring
    have e2 : (2 : ℚ) ^ (-48 : Int) ≤ 100 * (2 : ℚ) ^ (-54 : Int) := by norm_num
    nlinarith
  have hp := round_binary64_mono _ _ (by positivity) hq100
  rw [round_binary64_above_25] at hp
  refine ⟨_, ?_, lt_of_lt_of_le ?_ hp⟩
  · simp only [get_current_file_percentage, Dbl.div, hft, if_neg (ne_of_gt htpos), Dbl.scale]
  · have : (0 : ℚ) < (2 : ℚ) ^ (-48 : Int) := two_zpow_pos _
    linarith

/-- The percentage that `get_current_file_percentage` computes is at most 25 whenever the
exact occupancy is at most 25. -/
theorem current_file_percentage_le (stfs : StatVfs) (size : Int)
    (hcap : 0 < (stfs.f_blocks * stfs.f_frsize) % 2 ^ 64) (h0 : 0 ≤ size)
    (hocc : (size : ℚ) * 100 / (((stfs.f_blocks * stfs.f_frsize) % 2 ^ 64 : ℕ) : ℚ) ≤ 25) :
    ∃ p : ℚ, get_current_file_percentage (some stfs) (some size) = Dbl.fin p ∧ p ≤ 25 := by
  set t : ℕ := (stfs.f_blocks * stfs.f_frsize) % 2 ^ 64 with ht
  have ht1 : (1 : ℚ) ≤ (t : ℚ) := by exact_mod_cast hcap
  have htpos : (0 : ℚ) < (t : ℚ) := lt_of_lt_of_le one_pos ht1
  have hs0 : (0 : ℚ) ≤ (size : ℚ) := by exact_mod_cast h0
  have hs4 : (size : ℚ) ≤ (t : ℚ) * (2 : ℚ) ^ (-2 : Int) := by
    rw [div_le_iff₀ htpos] at hocc
    have e : (2 : ℚ) ^ (-2 : Int) = 1 / 4 := by norm_num
    rw [e]
    linarith
  have hft1 : 1 ≤ round_binary64 (t : ℚ) := by
    have := round_binary64_mono 1 (t : ℚ) (by norm_num) ht1
    rwa [round_binary64_one] at this
  have hftpos : 0 < round_binary64 (t : ℚ) := lt_of_lt_of_le one_pos hft1
  have hfs0 : 0 ≤ round_binary64 (size : ℚ) := round_binary64_nonneg _ hs0
  have hfs4 : round_binary64 (size : ℚ) ≤ round_binary64 (t : ℚ) * (2 : ℚ) ^ (-2 : Int) := by
    have := round_binary64_mono (size : ℚ) _ hs0 hs4
    rwa [round_binary64_scale (t : ℚ) htpos (-2)] at this
  have hq : round_binary64 (size : ℚ) / round_binary64 (t : ℚ) ≤ 1 / 4 := by
    rw [div_le_iff₀ hftpos]
    have e : (2 : ℚ) ^ (-2 : Int) = 1 / 4 := by norm_num
    rw [e] at hfs4
    linarith
  have hq0 : 0 ≤ round_binary64 (size : ℚ) / round_binary64 (t : ℚ) :=
    div_nonneg hfs0 (le_of_lt hftpos)
  have hr : round_binary64 (round_binary64 (size : ℚ) / round_binary64 (t : ℚ)) ≤ 1 / 4 := by
    have := round_binary64_mono _ _ hq0 hq
    rwa [round_binary64_quarter] at this
  have hr0 : 0 ≤ round_binary64 (round_binary64 (size : ℚ) / round_binary64 (t : ℚ)) :=
    round_binary64_nonneg _ hq0
  have hp : round_binary64
      (round_binary64 (round_binary64 (size : ℚ) / round_binary64 (t : ℚ)) * 100) ≤ 25 := by
    have := round_binary64_mono
      (round_binary64 (round_binary64 (size : ℚ) / round_binary64 (t : ℚ)) * 100) 25
      (by positivity) (by linarith)
    rwa [round_binary64_25] at this
  refine ⟨_, ?_, hp⟩
  simp only [get_current_file_percentage, Dbl.div, if_neg (ne_of_gt hftpos), Dbl.scale]

theorem rotation_check_gt (st : State) (inp : Input) :
    rotation_check st inp =
      if (get_current_file_percentage inp.vfs_file inp.st_size).gt 25 = true
      then rotate st inp.open_ret else Step.running st := by
  simp [rotation_check, FILE_PERCENTAGE_THRESHOLD]

theorem rotation_check_occupancy_le (st : State) (inp : Input) (stfs : StatVfs) (size : Int)
    (hv : inp.vfs_file = some stfs) (hs : inp.st_size = some size)
    (hcap : 0 < (stfs.f_blocks * stfs.f_frsize) % 2 ^ 64) (h0 : 0 ≤ size)
    (hocc : (size : ℚ) * 100 / (((stfs.f_blocks * stfs.f_frsize) % 2 ^ 64 : ℕ) : ℚ) ≤ 25) :
    rotation_check st inp = Step.running st := by
  obtain ⟨p, hp, hle⟩ := current_file_percentage_le stfs size hcap h0 hocc
  rw [rotation_check_gt, hv, hs, hp]
  have : ¬ ((25 : ℚ) < p) := not_lt.mpr hle
  simp [Dbl.gt, this]

theorem rotation_check_query_failure (st : State) (inp : Input)
    (h : inp.vfs_file = none ∨ inp.st_size = none) :
    rotation_check st inp = Step.running st := by
  have hq : ¬ ((25 : ℚ) < 0) := by norm_num
  rw [rotation_check_gt]
  rcases h with h | h
  · simp [h, get_current_file_percentage, Dbl.gt, hq]
  · rw [h]
    cases inp.vfs_file <;> simp [get_current_file_percentage, Dbl.gt, hq]

theorem rotation_check_occupancy_gt (st : State) (inp : Input) (stfs : StatVfs) (size : Int)
    (hv : inp.vfs_file = some stfs) (hs : inp.st_size = some size)
    (hcap : 0 < (stfs.f_blocks * stfs.f_frsize) % 2 ^ 64)
    (hsmall : (stfs.f_blocks * stfs.f_frsize) % 2 ^ 64 < 2 ^ 53)
    (hocc : (25 : ℚ) < (size : ℚ) * 100 / (((stfs.f_blocks * stfs.f_frsize) % 2 ^ 64 : ℕ) : ℚ)) :
    rotation_check st inp = rotate st inp.open_ret := by
  obtain ⟨p, hp, hlt⟩ := current_file_percentage_gt stfs size hcap hsmall hocc
  rw [rotation_check_gt, hv, hs, hp]
  simp [Dbl.gt, hlt]

/-- C8, as the code has it. In a periodic check with both queries successful, a non-zero
filesystem capacity and a non-negative file size, the worker rotates (closes the current
file and calls `open_file`) if and only if the percentage that the code computes in
`double` arithmetic is strictly greater than 25. When the occupancy percentage, file size
* 100 / capacity as an exact rational, is at most 25, in particular exactly 25, there is no
rotation, and every rotation has an occupancy strictly greater than 25. For a capacity
below `2 ^ 53` bytes the worker rotates if and only if the occupancy is strictly greater
than 25. When a query fails there is no rotation. -/
theorem rotation_threshold_strict (st : State) (inp : Input) (stfs : StatVfs) (size : Int)
    (hv : inp.vfs_file = some stfs) (hs : inp.st_size = some size)
    (hcap : 0 < (stfs.f_blocks * stfs.f_frsize) % 2 ^ 64) (h0 : 0 ≤ size) :
    (rotation_check st inp = rotate st inp.open_ret ↔
      (get_current_file_percentage inp.vfs_file inp.st_size).gt 25 = true) ∧
    ((size : ℚ) * 100 / (((stfs.f_blocks * stfs.f_frsize) % 2 ^ 64 : ℕ) : ℚ) ≤ 25 →
      rotation_check st inp = Step.running st) ∧
    (rotation_check st inp = rotate st inp.open_ret →
      (25 : ℚ) < (size : ℚ) * 100 / (((stfs.f_blocks * stfs.f_frsize) % 2 ^ 64 : ℕ) : ℚ)) ∧
    ((stfs.f_blocks * stfs.f_frsize) % 2 ^ 64 < 2 ^ 53 →
      (rotation_check st inp = rotate st inp.open_ret ↔
        (25 : ℚ) < (size : ℚ) * 100 / (((stfs.f_blocks * stfs.f_frsize) % 2 ^ 64 : ℕ) : ℚ))) ∧
    rotate st inp.open_ret ≠ Step.running st ∧
    (∀ inp2 : Input, inp2.vfs_file = none ∨ inp2.st_size = none →
      rotation_check st inp2 = Step.running st) := by
  have hne := rotate_ne_running st inp.open_ret
  have hle := rotation_check_occupancy_le st inp stfs size hv hs hcap h0
  have hrot : rotation_check st inp = rotate st inp.open_ret →
      (25 : ℚ) < (size : ℚ) * 100 / (((stfs.f_blocks * stfs.f_frsize) % 2 ^ 64 : ℕ) : ℚ) := by
    intro h
    by_contra hocc
    rw [hle (not_lt.mp hocc)] at h
    exact hne h.symm
  refine ⟨?_, hle, hrot, ?_, hne, fun inp2 h2 => rotation_check_query_failure st inp2 h2⟩
  · rw [rotation_check_gt]
    constructor
    · intro h
      by_contra hgt
      rw [if_neg hgt] at h
      exact hne h.symm
    · intro hgt
      rw [if_pos hgt]
  · intro hsmall
    exact ⟨hrot, rotation_check_occupancy_gt st inp stfs size hv hs hcap hsmall⟩

/-- Instance of `rotation_threshold_strict`: a file of 8192 bytes on a filesystem of 4 blocks
of 4096 bytes has occupancy 50, and the periodic check takes the rotation branch. -/
theorem rotation_threshold_strict_witness :
    rotation_check started_in_empty_folder { input_quarter_full with st_size := some 8192 }
      = rotate started_in_empty_folder 4 :=
  ((rotation_threshold_strict started_in_empty_folder
    { input_quarter_full with st_size := some 8192 }
    { f_blocks := 4, f_frsize := 4096, f_bfree := 2 } 8192 rfl rfl (by decide)
    (by decide)).2.2.2.1 (by decide)).mpr (by norm_num)

theorem round_binary64_large_size :
    round_binary64 (1152921504606846977 : ℚ) = 1152921504606846976 := by
  have hlog : Int.log 2 (1152921504606846977 : ℚ) = 60 := by
    apply log_two_eq <;> norm_num
  have hpos : (0 : ℚ) < (1152921504606846977 : ℚ) := by norm_num
  have hu : (2 : ℚ) ^ (60 - 52 : Int) = 256 := by norm_num
  have hfloor : ⌊(1152921504606846977 : ℚ) / 256⌋ = 4503599627370496 := by
    rw [Int.floor_eq_iff]
    constructor <;> norm_num
  have hrhe : round_half_even ((1152921504606846977 : ℚ) / 256) = 4503599627370496 := by
    unfold round_half_even
    rw [hfloor, if_pos (by norm_num)]
  simp only [round_binary64, ne_of_gt hpos, hpos, if_true, if_false, round_binary64_pos,
    hlog, hu, hrhe]
  norm_num

theorem round_binary64_large_capacity :
    round_binary64 (4611686018427387904 : ℚ) = 4611686018427387904 := by
  have h := round_binary64_exact 4503599627370496 10 (by norm_num) (by norm_num)
  have e : ((4503599627370496 : Int) : ℚ) * (2 : ℚ) ^ (10 : Int) = 4611686018427387904 := by
    norm_num
  rw [e] at h
  exact h

theorem large_capacity_cast :
    ((1125899906842624 * 4096 % 2 ^ 64 : ℕ) : ℚ) = 4611686018427387904 := by
  norm_num

/-- Rounding makes the threshold inexact for very large filesystems: for a file of
`2 ^ 60 + 1` bytes on a filesystem of `2 ^ 62` bytes (`2 ^ 50` blocks of 4096 bytes) the size
is rounded to `2 ^ 60` and the computed percentage is exactly 25. -/
theorem current_file_percentage_rounding_example :
    get_current_file_percentage
      (some { f_blocks := 1125899906842624, f_frsize := 4096, f_bfree := 0 })
      (some 1152921504606846977) = Dbl.fin 25 := by
  have hcap : ((1125899906842624 * 4096 % 2 ^ 64 : ℕ) : ℚ) = 4611686018427387904 := large_capacity_cast
  have hquot : (1152921504606846976 : ℚ) / 4611686018427387904 = 1 / 4 := by norm_num
  have h100 : (1 : ℚ) / 4 * 100 = 25 := by norm_num
  have hne : (4611686018427387904 : ℚ) ≠ 0 := by norm_num
  unfold get_current_file_percentage
  show (Dbl.div (round_binary64 ((1152921504606846977 : Int) : ℚ))
    (round_binary64 ((1125899906842624 * 4096 % 2 ^ 64 : ℕ) : ℚ))).scale 100 = Dbl.fin 25
  rw [hcap, round_binary64_large_capacity]
  have hsz : ((1152921504606846977 : Int) : ℚ) = (1152921504606846977 : ℚ) := by norm_num
  rw [hsz, round_binary64_large_size]
  unfold Dbl.div
  rw [if_neg hne, hquot, round_binary64_quarter]
  unfold Dbl.scale
  simp only
  rw [h100, round_binary64_25]

/-- With a file of `2 ^ 60 + 1` bytes on a filesystem of `2 ^ 62` bytes the occupancy is above
25, yet there is no rotation. -/
theorem rotation_check_rounding_example (st : State) :
    rotation_check st { input_quarter_full with
        vfs_file := some { f_blocks := 1125899906842624, f_frsize := 4096, f_bfree := 0 }
        st_size := some 1152921504606846977 }
      = Step.running st ∧
    (25 : ℚ) < (1152921504606846977 : ℚ) * 100 / 4611686018427387904 := by
  refine ⟨?_, by norm_num⟩
  have hq : ¬ ((25 : ℚ) < 25) := lt_irrefl _
  rw [rotation_check_gt]
  have hv : ({ input_quarter_full with
        vfs_file := some { f_blocks := 1125899906842624, f_frsize := 4096, f_bfree := 0 }
        st_size := some 1152921504606846977 } : Input).vfs_file
      = some { f_blocks := 1125899906842624, f_frsize := 4096, f_bfree := 0 } := rfl
  have hs : ({ input_quarter_full with
        vfs_file := some { f_blocks := 1125899906842624, f_frsize := 4096, f_bfree := 0 }
        st_size := some 1152921504606846977 } : Input).st_size
      = some 1152921504606846977 := rfl
  rw [hv, hs, current_file_percentage_rounding_example]
  simp only [Dbl.gt, hq, decide_False, Bool.false_eq_true, if_false]


/-- C8 fails as stated. A file of 4096 bytes on a filesystem of 4 blocks of 4096 bytes has
occupancy exactly 25, and the periodic check does not rotate: the test is `> 25`. -/
theorem rotation_at_threshold_counterexample :
    ((4096 : ℚ) * 100 / (((4 * 4096) % 2 ^ 64 : ℕ) : ℚ) = 25) ∧
    rotation_check started_in_empty_folder input_quarter_full
      = Step.running started_in_empty_folder ∧
    rotate started_in_empty_folder input_quarter_full.open_ret
      ≠ Step.running started_in_empty_folder := by
  refine ⟨by norm_num, ?_, rotate_ne_running _ _⟩
  exact rotation_check_occupancy_le started_in_empty_folder input_quarter_full
    { f_blocks := 4, f_frsize := 4096, f_bfree := 2 } 4096 rfl rfl (by decide) (by decide)
    (by norm_num)

/-! ## Claims about the frame buffer -/

theorem sys_remove_fields (st : State) (path : List Char) :
    (sys_remove st path).2.max_frame_size = st.max_frame_size ∧
    (sys_remove st path).2.frame = st.frame := by
  unfold sys_remove
  cases resolve st.folder path with
  | none => exact ⟨rfl, rfl⟩
  | some name =>
    simp only
    split_ifs <;> exact ⟨rfl, rfl⟩

theorem delete_oldest_file_fields (st : State) (r : Int × State)
    (h : delete_oldest_file st = some r) :
    r.2.max_frame_size = st.max_frame_size ∧ r.2.frame = st.frame := by
  unfold delete_oldest_file at h
  cases hn : get_file_number (read_dir st) OLDEST_FILE with
  | none => rw [hn] at h; cases h
  | some n =>
    rw [hn] at h
    cases hfn : st.file_name with
    | none => simp [hfn] at h
    | some name =>
      simp only [hfn] at h
      split_ifs at h <;> cases h <;> exact sys_remove_fields st _

theorem eviction_check_fields (st st1 : State) (inp : Input)
    (h : eviction_check st inp = Step.running st1) :
    st1.max_frame_size = st.max_frame_size ∧ st1.frame = st.frame := by
  unfold eviction_check at h
  split_ifs at h
  · cases hd : delete_oldest_file st with
    | none => rw [hd] at h; cases h
    | some r =>
      rw [hd] at h
      cases h
      exact delete_oldest_file_fields st r hd
  · cases h
    exact ⟨rfl, rfl⟩

theorem rotation_check_fields (st st1 : State) (inp : Input)
    (h : rotation_check st inp = Step.running st1) :
    st1.max_frame_size = st.max_frame_size ∧ st1.frame = st.frame := by
  unfold rotation_check at h
  split_ifs at h
  · have hf := rotate_fields st st1 _ (Or.inl h)
    exact ⟨hf.2.1, hf.2.2.1⟩
  · cases h
    exact ⟨rfl, rfl⟩

theorem periodic_check_fields (st st2 : State) (inp : Input)
    (h : periodic_check st inp = Step.running st2) :
    st2.max_frame_size = st.max_frame_size ∧ st2.frame = st.frame := by
  unfold periodic_check at h
  cases hr : rotation_check st inp with
  | running st1 =>
    rw [hr] at h
    obtain ⟨r1, r2⟩ := rotation_check_fields st st1 inp hr
    cases he : eviction_check st1 inp with
    | running st3 =>
      simp only [he] at h
      obtain ⟨e1, e2⟩ := eviction_check_fields st1 st3 inp he
      cases h
      exact ⟨e1.trans r1, e2.trans r2⟩
    | returned st3 => simp only [he] at h; cases h
    | undefined => simp only [he] at h; cases h
  | returned st1 => rw [hr] at h; cases h
  | undefined => rw [hr] at h; cases h

theorem worker_iteration_fields (st st2 : State) (inp : Input)
    (h : worker_iteration st inp = Step.running st2) :
    ∃ st1, ensure_buffer st inp.frame_size inp.realloc_ok = Step.running st1 ∧
      st2.max_frame_size = st1.max_frame_size ∧ st2.frame = st1.frame := by
  unfold worker_iteration at h
  cases hb : ensure_buffer st inp.frame_size inp.realloc_ok with
  | running st1 =>
    rw [hb] at h
    refine ⟨st1, rfl, ?_⟩
    simp only at h
    split_ifs at h
    · have hp := periodic_check_fields _ st2 inp h
      exact hp
    · cases h
      exact ⟨rfl, rfl⟩
  | returned st1 => rw [hb] at h; cases h
  | undefined => rw [hb] at h; cases h

theorem ensure_buffer_spec (st : State) (s : Int) (realloc_ok : Bool)
    (h0 : 0 ≤ s) (h1 : s ≤ INT_MAX - 65536) :
    (∀ st1, (ensure_buffer st s realloc_ok = Step.running st1 ∨
        ensure_buffer st s realloc_ok = Step.returned st1) →
      st1.max_frame_size = if s > st.max_frame_size then s + 65536 else st.max_frame_size) ∧
    (∀ st1, ensure_buffer st s realloc_ok = Step.running st1 → buffer_ok st →
      buffer_ok st1) ∧
    ensure_buffer st s realloc_ok ≠ Step.undefined := by
  have hw : wrapInt32 (s + 65536) = s + 65536 :=
    wrapInt32_of_range _ (by omega) (by unfold INT_MAX at h1; omega)
  unfold ensure_buffer
  by_cases hgt : s > st.max_frame_size
  · simp only [if_pos hgt, hw]
    cases realloc_ok with
    | false =>
      simp only [Bool.not_false, if_true]
      refine ⟨?_, ?_, by simp⟩
      · rintro st1 (h | h) <;> cases h
        rfl
      · intro st1 h
        cases h
    | true =>
      simp only [Bool.not_true, Bool.false_eq_true, if_false]
      refine ⟨?_, ?_, by simp⟩
      · rintro st1 (h | h) <;> cases h
        rfl
      · intro st1 h _
        cases h
        refine ⟨?_, ?_, Or.inr rfl⟩
        · show 0 ≤ s + 65536
          omega
        · show s + 65536 ≤ INT_MAX
          omega
  · simp only [if_neg hgt]
    refine ⟨?_, ?_, by simp⟩
    · rintro st1 (h | h) <;> cases h
      rfl
    · intro st1 h hok
      cases h
      exact hok

theorem worker_thread_buffer_ok (inps : List Input) : ∀ (st0 st : State),
    buffer_ok st0 →
    (∀ inp ∈ inps, 0 ≤ inp.frame_size ∧ inp.frame_size ≤ INT_MAX - 65536) →
    worker_thread st0 inps = Step.running st → buffer_ok st := by
  induction inps with
  | nil =>
    intro st0 st hok _ hrun
    simp only [worker_thread] at hrun
    cases hrun
    exact hok
  | cons inp rest ih =>
    intro st0 st hok hb hrun
    simp only [worker_thread] at hrun
    split_ifs at hrun
    cases hw : worker_iteration st0 inp with
    | running st2 =>
      rw [hw] at hrun
      obtain ⟨st1, he, hm, hf⟩ := worker_iteration_fields st0 st2 inp hw
      obtain ⟨hb0, hb1⟩ := hb inp (by simp)
      have hok1 := (ensure_buffer_spec st0 inp.frame_size inp.realloc_ok hb0 hb1).2.1 st1 he hok
      have hok2 : buffer_ok st2 := by
        unfold buffer_ok at hok1 ⊢
        rw [hm, hf]
        exact hok1
      exact ih st2 st hok2 (fun i hi => hb i (by simp [hi])) hrun
    | returned st2 => rw [hw] at hrun; cases hrun
    | undefined => rw [hw] at hrun; cases hrun

/-- C10. Frame buffer capacity invariant. The worker starts with capacity 0 and no buffer
and has gone through any number of loop iterations whose frame sizes lie between 0 and
`INT_MAX - 65536`. For the next frame of such a size `s`: the capacity `max_frame_size` after
the size check is `s + 65536` when `s` exceeds the current capacity and is unchanged
otherwise, so it never decreases and changes only by growth; where the `s` bytes are copied
the capacity is at least `s` and `frame` is a block of exactly that capacity (or `s` is 0);
and the iteration ends with the capacity it had at the copy. -/
theorem frame_buffer_capacity_invariant (st0 st : State) (inps : List Input)
    (hcap : st0.max_frame_size = 0) (hframe : st0.frame = none)
    (hb : ∀ inp ∈ inps, 0 ≤ inp.frame_size ∧ inp.frame_size ≤ INT_MAX - 65536)
    (hrun : worker_thread st0 inps = Step.running st)
    (inp : Input) (h0 : 0 ≤ inp.frame_size) (h1 : inp.frame_size ≤ INT_MAX - 65536) :
    (∀ st1, (ensure_buffer st inp.frame_size inp.realloc_ok = Step.running st1 ∨
        ensure_buffer st inp.frame_size inp.realloc_ok = Step.returned st1) →
      st.max_frame_size ≤ st1.max_frame_size ∧
      (st1.max_frame_size ≠ st.max_frame_size ↔ inp.frame_size > st.max_frame_size) ∧
      (inp.frame_size > st.max_frame_size → st1.max_frame_size = inp.frame_size + 65536)) ∧
    (∀ st1, ensure_buffer st inp.frame_size inp.realloc_ok = Step.running st1 →
      inp.frame_size ≤ st1.max_frame_size ∧
      (st1.frame = some st1.max_frame_size ∨ (st1.frame = none ∧ inp.frame_size = 0))) ∧
    (∀ st2, worker_iteration st inp = Step.running st2 →
      st.max_frame_size ≤ st2.max_frame_size ∧
      inp.frame_size ≤ st2.max_frame_size ∧
      st2.max_frame_size =
        if inp.frame_size > st.max_frame_size then inp.frame_size + 65536
        else st.max_frame_size) := by
  have hok0 : buffer_ok st0 := by
    unfold buffer_ok INT_MAX
    rw [hcap, hframe]
    exact ⟨le_refl _, by norm_num, Or.inl ⟨rfl, rfl⟩⟩
  have hok : buffer_ok st := worker_thread_buffer_ok inps st0 st hok0 hb hrun
  obtain ⟨hval, hpres, -⟩ := ensure_buffer_spec st inp.frame_size inp.realloc_ok h0 h1
  refine ⟨?_, ?_, ?_⟩
  · intro st1 h
    have hv := hval st1 h
    by_cases hgt : inp.frame_size > st.max_frame_size
    · rw [if_pos hgt] at hv
      exact ⟨by omega, ⟨fun _ => hgt, fun _ => by omega⟩, fun _ => hv⟩
    · rw [if_neg hgt] at hv
      exact ⟨by omega, ⟨fun hne => absurd hv hne, fun h => absurd h hgt⟩,
        fun h => absurd h hgt⟩
  · intro st1 h
    have hv := hval st1 (Or.inl h)
    obtain ⟨hk0, hk1, hk2⟩ := hpres st1 h hok
    have hle : inp.frame_size ≤ st1.max_frame_size := by
      by_cases hgt : inp.frame_size > st.max_frame_size
      · rw [if_pos hgt] at hv
        omega
      · rw [if_neg hgt] at hv
        omega
    refine ⟨hle, ?_⟩
    rcases hk2 with ⟨hn, hz⟩ | hs
    · exact Or.inr ⟨hn, by omega⟩
    · exact Or.inl hs
  · intro st2 h
    obtain ⟨st1, he, hm, -⟩ := worker_iteration_fields st st2 inp h
    have hv := hval st1 (Or.inl he)
    rw [hm, hv]
    by_cases hgt : inp.frame_size > st.max_frame_size
    · simp only [if_pos hgt]
      exact ⟨by omega, by omega, trivial⟩
    · simp only [if_neg hgt]
      exact ⟨le_refl _, by omega, trivial⟩

/-- Instance of `frame_buffer_capacity_invariant`: the recorder has taken one frame of 1000
bytes, which set the capacity to 66536, and now takes a frame of 70000 bytes. -/
theorem frame_buffer_capacity_invariant_witness :
    worker_thread started_in_empty_folder [input_frame 1000]
      = Step.running { started_in_empty_folder with
          max_frame_size := 66536
          frame := some 66536
          counter := 1
          log := started_in_empty_folder.log ++ [Event.sys_write 3 1000] } ∧
    ∀ st2, worker_iteration { started_in_empty_folder with
          max_frame_size := 66536
          frame := some 66536
          counter := 1
          log := started_in_empty_folder.log ++ [Event.sys_write 3 1000] } (input_frame 70000)
        = Step.running st2 →
      (66536 : Int) ≤ st2.max_frame_size ∧ (70000 : Int) ≤ st2.max_frame_size ∧
      st2.max_frame_size = if (70000 : Int) > 66536 then 70000 + 65536 else 66536 :=
  ⟨by decide,
   (frame_buffer_capacity_invariant started_in_empty_folder _ [input_frame 1000]
      (by decide) (by decide) (by decide) (by decide) (input_frame 70000)
      (by decide) (by decide)).2.2⟩


end OutputMjpeg
